import Mathlib

/-
Verification of the ecsy Entity-Component-System runtime (src/build/ecsy.js).

Each section below is a shallow embedding of one class of the source file:

* `ObjectPool`       — src lines 499-559 (free-list pool, `aquire`/`expand`/`release`)
* `ComponentManager` — src lines 949-997 (type registry and per-type usage counters)
* `EventDispatcher`  — src lines 111-188 (named listener registry)
* `queryKey` and the query cache — src lines 214-232 and 650-657
* `SystemManager`    — src lines 16-105 (priority-sorted system vector)
* The entity/id pool — src lines 331-493 and 695-701 (`nextId`, `Entity.reset`,
  `EntityManager.createEntity`)
* The deferred-removal machinery over component instances — src lines 745-768
  and 836-861
* The query index — src lines 238-324, 565-669, 675-861 (`Query`, `QueryManager`,
  `EntityManager.entityAddComponent` / `entityRemoveComponent` / `removeEntity`)

JavaScript idioms are translated as follows: an `Array` of objects becomes a
`List` of ids into an explicit store (the "heap"); `indexOf(x) !== -1` becomes
list membership; `splice(indexOf(x), 1)` becomes `List.erase` (first occurrence)
guarded by membership; a plain object used as a string-keyed map becomes an
association list in insertion order.
-/

namespace Ecsy

/-! ## ObjectPool (src lines 499-559)

Pool items carry no data that the claims depend on, so an item is modelled as a
bare `Nat` (its identity); `new T()` produces the item `0` and `item.reset()`
does not change an item's identity.  `freeList.push` appends at the end and
`freeList.pop` removes from the end, as in JS. -/

/-- JS `Math.round(count * 0.2)` for a natural `count`, i.e. `⌊count/5 + 1/2⌋ =
⌊(2*count+5)/10⌋`.  The real number `count/5 + 1/2` has fractional part at least
`1/10` away from the rounding boundary, far above the error of IEEE doubles for
any pool size that can arise in practice, so the float computation agrees with
this exact rational formula. -/
def jsRound02 (count : Nat) : Nat := (2 * count + 5) / 10

/-- Modelled from the spec: `ceil(count * 0.2) = ⌈count/5⌉ = ⌊(count+4)/5⌋`, the
growth formula the specification asserts (the source uses `Math.round`, not
`ceil`; this definition exists only to compare the two). -/
def specCeil02 (count : Nat) : Nat := (count + 4) / 5

structure ObjectPool where
  freeList : List Nat
  count : Nat
deriving DecidableEq

/-- `ObjectPool.expand(count)`: push `n` freshly created elements and add `n` to
`count`. -/
def ObjectPool.expand (p : ObjectPool) (n : Nat) : ObjectPool :=
  { freeList := p.freeList ++ List.replicate n 0, count := p.count + n }

/-- `ObjectPool.aquire()`: grow by `Math.round(count * 0.2) + 1` when the free
list is empty, then pop (remove and return the last element). -/
def ObjectPool.aquire (p : ObjectPool) : Nat × ObjectPool :=
  let p1 := if p.freeList.length ≤ 0 then p.expand (jsRound02 p.count + 1) else p
  (p1.freeList.getLastD 0, { p1 with freeList := p1.freeList.dropLast })

/-- `ObjectPool.release(item)`: `item.reset()` (identity-preserving here) then
push onto the free list. -/
def ObjectPool.release (p : ObjectPool) (item : Nat) : ObjectPool :=
  { p with freeList := p.freeList ++ [item] }

def ObjectPool.totalSize (p : ObjectPool) : Nat := p.count

def ObjectPool.totalFree (p : ObjectPool) : Nat := p.freeList.length

def ObjectPool.totalUsed (p : ObjectPool) : Nat := p.count - p.freeList.length

/-- The number of fresh instances an `aquire` on an empty free list creates,
as a function of the pool's current `count` (the quantity claim C3 is about). -/
def emptyAquireGrowth (c : Nat) : Nat := ((ObjectPool.mk [] c).aquire).2.count - c

/-! ## ComponentManager (src lines 949-997)

Component types are identified by their class name (`Component.name`), a
`String`; the class object itself is modelled as a `Nat` tag.  The JS objects
`this.Components` and `this.numComponents` are string-keyed maps in insertion
order, modelled as association lists: assignment to an existing key overwrites
in place, assignment to a fresh key appends.  Only `registerComponent` and
`componentAddedToEntity` matter to the claims; counts never go below zero in the
scenarios considered, so they are `Nat`. -/

/-- JS `obj[k] = v` on a string-keyed object. -/
def setAssoc (l : List (String × Nat)) (k : String) (v : Nat) : List (String × Nat) :=
  if l.any (fun p => p.1 = k) then
    l.map (fun p => if p.1 = k then (k, v) else p)
  else
    l ++ [(k, v)]

/-- JS `obj[k]` on a string-keyed object (`none` for `undefined`). -/
def lookupAssoc (l : List (String × Nat)) (k : String) : Option Nat :=
  (l.find? (fun p => p.1 = k)).map (fun p => p.2)

structure ComponentManager where
  Components : List (String × Nat)
  numComponents : List (String × Nat)
deriving DecidableEq

/-- `ComponentManager.registerComponent(Component)`: unconditionally stores the
type under its name and assigns 0 to its usage counter. -/
def ComponentManager.registerComponent (m : ComponentManager) (name : String)
    (ty : Nat) : ComponentManager :=
  { Components := setAssoc m.Components name ty,
    numComponents := setAssoc m.numComponents name 0 }

/-- `ComponentManager.componentAddedToEntity(Component)`: JS
`if (!this.numComponents[name]) { ... = 1 } else { ...++ }`; both `undefined`
and `0` are falsy. -/
def ComponentManager.componentAddedToEntity (m : ComponentManager)
    (name : String) : ComponentManager :=
  match lookupAssoc m.numComponents name with
  | none => { m with numComponents := setAssoc m.numComponents name 1 }
  | some 0 => { m with numComponents := setAssoc m.numComponents name 1 }
  | some (n + 1) => { m with numComponents := setAssoc m.numComponents name (n + 2) }

/-! ## EventDispatcher (src lines 111-188)

Listener functions are opaque; a listener is modelled by an id (`Nat`).
`dispatchEvent` iterates a snapshot of the listener array and calls each
listener once; since listeners are opaque here, its observable behaviour is the
sequence of listeners invoked. -/

structure EventDispatcher where
  listeners : List (String × List Nat)
deriving DecidableEq

/-- `EventDispatcher.addEventListener(eventName, listener)`: initialise the
array for `eventName` if missing, then push `listener` only if `indexOf`
returns -1. -/
def EventDispatcher.addEventListener (d : EventDispatcher) (eventName : String)
    (listener : Nat) : EventDispatcher :=
  let ls := if d.listeners.any (fun p => p.1 = eventName) then d.listeners
            else d.listeners ++ [(eventName, [])]
  ⟨ls.map (fun p =>
    if p.1 = eventName then
      (p.1, if listener ∈ p.2 then p.2 else p.2 ++ [listener])
    else p)⟩

/-- `EventDispatcher.dispatchEvent(eventName, ...)`: the listeners invoked, in
order (a snapshot of the registered array; the snapshot only matters when
listeners mutate the registry, which opaque listeners cannot do). -/
def EventDispatcher.dispatchEvent (d : EventDispatcher) (eventName : String) :
    List Nat :=
  ((d.listeners.find? (fun p => p.1 = eventName)).map (fun p => p.2)).getD []

/-! ## queryKey and the query cache (src lines 214-232, 650-657)

A query-spec element is either a component type (positive) or the wrapper
`Not(Component)` (negated); types are identified by class name.  `queryKey`
pushes the name (prefixed with `!` for negated entries), lower-cases, sorts and
joins with `-`.  JS `String.prototype.toLowerCase` on the class names at hand
lower-cases each character; `Array.prototype.sort()` sorts the strings by their
code-unit sequences, modelled by insertion sort over an explicit lexicographic
order on the character data (any total order yields the same sorted list for
the same multiset, which is all the claims depend on). -/

/-- A spec element: `T` or `Not(T)`, with `T`'s class name. -/
inductive QElem where
  | pos (name : String)
  | neg (name : String)
deriving DecidableEq

/-- The string `queryKey` pushes for one spec element. -/
def QElem.pushedName : QElem → String
  | .pos n => n
  | .neg n => "!" ++ n

/-- JS `toLowerCase` (character-wise lower-casing). -/
def jsToLower (s : String) : String := String.mk (s.data.map Char.toLower)

/-- Lexicographic comparison of character lists (the order JS `sort()` uses on
strings). -/
def lexLe : List Char → List Char → Bool
  | [], _ => true
  | _ :: _, [] => false
  | a :: as, b :: bs =>
    if a < b then true
    else if b < a then false
    else lexLe as bs

def strLe (a b : String) : Prop := lexLe a.data b.data = true

instance : DecidableRel strLe := fun a b => by unfold strLe; infer_instance

/-- The head-wise characterisation of `lexLe` used by the order instances. -/
def lexLe_cons (a b : Char) (as bs : List Char) :
    (lexLe (a :: as) (b :: bs) = true) ↔ (a < b ∨ (a = b ∧ lexLe as bs = true)) := by
  simp only [lexLe]
  rcases lt_trichotomy a b with h | h | h
  · simp [h]
  · subst h; simp [lt_irrefl]
  · simp [asymm h, h, h.ne']

instance : IsTotal String strLe where
  total a b := by
    suffices h : ∀ x y : List Char, lexLe x y = true ∨ lexLe y x = true by
      exact h a.data b.data
    intro x
    induction x with
    | nil => intro y; left; rfl
    | cons c cs ih =>
      intro y
      cases y with
      | nil => right; rfl
      | cons d ds =>
        rw [lexLe_cons, lexLe_cons]
        rcases lt_trichotomy c d with h | h | h
        · exact Or.inl (Or.inl h)
        · rcases ih ds with h2 | h2
          · exact Or.inl (Or.inr ⟨h, h2⟩)
          · exact Or.inr (Or.inr ⟨h.symm, h2⟩)
        · exact Or.inr (Or.inl h)

instance : IsTrans String strLe where
  trans a b c hab hbc := by
    suffices h : ∀ x y z : List Char, lexLe x y = true → lexLe y z = true →
        lexLe x z = true by
      exact h a.data b.data c.data hab hbc
    intro x
    induction x with
    | nil => intro y z _ _; rfl
    | cons cx xs ih =>
      intro y z hxy hyz
      cases y with
      | nil => simp [lexLe] at hxy
      | cons cy ys =>
        cases z with
        | nil => simp [lexLe] at hyz
        | cons cz zs =>
          rw [lexLe_cons] at hxy hyz ⊢
          rcases hxy with h1 | ⟨h1, h1'⟩ <;> rcases hyz with h2 | ⟨h2, h2'⟩
          · exact Or.inl (h1.trans h2)
          · exact Or.inl (h2 ▸ h1)
          · exact Or.inl (h1 ▸ h2)
          · exact Or.inr ⟨h1.trans h2, ih ys zs h1' h2'⟩

instance : IsAntisymm String strLe where
  antisymm a b hab hba := by
    suffices h : ∀ x y : List Char, lexLe x y = true → lexLe y x = true → x = y by
      cases a; cases b
      simp only [strLe] at hab hba
      exact congrArg String.mk (h _ _ hab hba)
    intro x
    induction x with
    | nil =>
      intro y _ hy
      cases y with
      | nil => rfl
      | cons d ds => simp [lexLe] at hy
    | cons c cs ih =>
      intro y hxy hyx
      cases y with
      | nil => simp [lexLe] at hxy
      | cons d ds =>
        rw [lexLe_cons] at hxy hyx
        rcases hxy with h1 | ⟨h1, h1'⟩
        · rcases hyx with h2 | ⟨h2, _⟩
          · exact absurd h1 (asymm h2)
          · exact absurd h1 (h2 ▸ lt_irrefl d)
        · rcases hyx with h2 | ⟨h2, h2'⟩
          · exact absurd h2 (h1 ▸ lt_irrefl c)
          · rw [h1, ih ds h1' h2']

/-- `queryKey(Components)` (src lines 214-232). -/
def queryKey (spec : List QElem) : String :=
  String.intercalate "-"
    (((spec.map QElem.pushedName).map jsToLower).insertionSort strLe)

/-- The `QueryManager`'s `_queries` cache (src lines 565-571, 650-657): a map
from signature to the query object, modelled as key ↦ query id plus a counter
producing ids for newly constructed queries (two `Query` objects constructed at
different times are different objects, hence different ids). -/
structure QueryCache where
  queries : List (String × Nat)
  nextQueryId : Nat
deriving DecidableEq

/-- `QueryManager.getQuery(Components)` (src lines 650-657): return the cached
query for the spec's key, constructing and caching a new one if absent. -/
def QueryCache.getQuery (m : QueryCache) (spec : List QElem) : Nat × QueryCache :=
  let key := queryKey spec
  match m.queries.find? (fun p => p.1 = key) with
  | some p => (p.2, m)
  | none => (m.nextQueryId,
      { queries := m.queries ++ [(key, m.nextQueryId)],
        nextQueryId := m.nextQueryId + 1 })

/-! ## SystemManager (src lines 16-105)

Only the fields `registerSystem`/`sortSystems`/`execute` read are modelled:
`priority` (from `attributes.priority`, default 0) and `order` (the system
vector's length at registration).  `execute` iterates `this._systems` in array
order — `enabled`/`canExecute` gating can skip a system but never reorders —
so the invocation order claim is about the array's order after sorting.
`Array.prototype.sort` with the comparator
`a.priority - b.priority || a.order - b.order` produces an array sorted by that
comparator; since distinct systems always have distinct `order`, the comparator
is a total order and the sorted array is unique, so any sorting algorithm
(insertion sort here) models it. -/

structure Sys where
  priority : Int
  order : Nat
deriving DecidableEq

/-- The comparator of `sortSystems`:
`a.priority - b.priority || a.order - b.order ≤ 0`. -/
def sysLe (a b : Sys) : Prop :=
  a.priority < b.priority ∨ (a.priority = b.priority ∧ a.order ≤ b.order)

instance : DecidableRel sysLe := fun a b => by unfold sysLe; infer_instance

instance : IsTotal Sys sysLe where
  total a b := by
    unfold sysLe
    rcases lt_trichotomy a.priority b.priority with h | h | h
    · exact Or.inl (Or.inl h)
    · rcases Nat.le_total a.order b.order with h2 | h2
      · exact Or.inl (Or.inr ⟨h, h2⟩)
      · exact Or.inr (Or.inr ⟨h.symm, h2⟩)
    · exact Or.inr (Or.inl h)

instance : IsTrans Sys sysLe where
  trans a b c hab hbc := by
    unfold sysLe at *
    rcases hab with h | ⟨h, h2⟩ <;> rcases hbc with h' | ⟨h', h2'⟩
    · exact Or.inl (h.trans h')
    · exact Or.inl (h' ▸ h)
    · exact Or.inl (h ▸ h')
    · exact Or.inr ⟨h.trans h', h2.trans h2'⟩

structure SystemManager where
  systems : List Sys
deriving DecidableEq

/-- `SystemManager.sortSystems()`. -/
def SystemManager.sortSystems (m : SystemManager) : SystemManager :=
  ⟨m.systems.insertionSort sysLe⟩

/-- `SystemManager.registerSystem(System, attributes)`: construct the system
(its `priority` comes from `attributes.priority`, default 0), assign
`order = this._systems.length`, push, re-sort. -/
def SystemManager.registerSystem (m : SystemManager) (priority : Int) :
    SystemManager :=
  SystemManager.sortSystems ⟨m.systems ++ [⟨priority, m.systems.length⟩]⟩

/-- Register a sequence of systems (given by their priorities) on an empty
manager, in order. -/
def registerAll (ps : List Int) : SystemManager :=
  ps.foldl SystemManager.registerSystem ⟨[]⟩

/-- The systems a frame's `execute(delta, time)` walks, in invocation order
(src lines 71-82: `this._systems.forEach`). -/
def SystemManager.executionOrder (m : SystemManager) : List Sys := m.systems

/-- The list of systems that registering priorities `ps` starting at order `k`
creates, in registration order (the i-th registration gets `order = k + i`). -/
def mkSystems : List Int → Nat → List Sys
  | [], _ => []
  | p :: ps, k => ⟨p, k⟩ :: mkSystems ps (k + 1)

/-! ## nextId, Entity.reset and EntityManager.createEntity (src lines 331-346,
479-485, 525-546, 675-701)

For the id claim only the `id` field of an entity and the module-global
`nextId` counter matter.  The entity pool is the same free-list pool as above
but its `createElement` is `new Entity()`, which draws `id = nextId++`, and
`release` calls `Entity.reset`, which also draws `id = nextId++`; both
therefore thread the counter. -/

structure PEntity where
  id : Nat
deriving DecidableEq

structure EntityIdState where
  nextId : Nat
  freeList : List PEntity
  poolCount : Nat
  entities : List PEntity
deriving DecidableEq

/-- `ObjectPool.expand(count)` for the entity pool: each `new Entity()` runs the
constructor, which assigns `this.id = nextId++`. -/
def expandEntities (s : EntityIdState) : Nat → EntityIdState
  | 0 => s
  | n + 1 =>
    expandEntities
      { s with nextId := s.nextId + 1,
               freeList := s.freeList ++ [⟨s.nextId⟩],
               poolCount := s.poolCount + 1 } n

/-- `ObjectPool.aquire()` on the entity pool. -/
def aquireEntity (s : EntityIdState) : PEntity × EntityIdState :=
  let s1 := if s.freeList.length ≤ 0 then expandEntities s (jsRound02 s.poolCount + 1)
            else s
  (s1.freeList.getLastD ⟨0⟩, { s1 with freeList := s1.freeList.dropLast })

/-- `EntityManager.createEntity()` (src lines 695-701): aquire from the pool,
set the world back-pointer (not modelled), push onto `_entities`. -/
def createEntity (s : EntityIdState) : PEntity × EntityIdState :=
  let (e, s1) := aquireEntity s
  (e, { s1 with entities := s1.entities ++ [e] })

/-- `ObjectPool.release(entity)`: `entity.reset()` assigns `this.id = nextId++`
(src lines 479-485), then the entity is pushed onto the free list. -/
def releaseEntity (s : EntityIdState) (_e : PEntity) : EntityIdState :=
  { s with nextId := s.nextId + 1,
           freeList := s.freeList ++ [⟨s.nextId⟩],
           poolCount := s.poolCount }

/-- `EntityManager._removeEntitySync` for an entity with no components
(src lines 815-825): splice out of `_entities`, null the world pointer, release
to the pool. -/
def removeEntitySync (s : EntityIdState) (e : PEntity) : EntityIdState :=
  releaseEntity { s with entities := s.entities.erase e } e

/-! ## Deferred component removal over instances and pools (src lines 377-379,
745-768, 836-861, 981-996)

This fragment models what claim C6's scenario touches: one entity's four
component stores (`_ComponentTypes`, `_components`, `_componentsToRemove`,
`_ComponentTypesToRemove`), the per-type pools (keyed by
`componentPropertyName`), and the world's `entitiesWithComponentsToRemove`
list (a membership flag for the single entity).  The `QueryManager`
notification performed by `entityRemoveComponent` touches neither the instance
maps nor the pools and is modelled in the query-index section instead; event
dispatches carry no state. -/

/-- `componentPropertyName(Component)` (src lines 204-207): the class name with
its first character lower-cased. -/
def componentPropertyName (name : String) : String :=
  match name.data with
  | [] => String.mk []
  | c :: rest => String.mk (c.toLower :: rest)

/-- JS `obj[k] = v` for a string-keyed map of component instances. -/
def setInst (l : List (String × Nat)) (k : String) (v : Nat) : List (String × Nat) :=
  if l.any (fun p => p.1 = k) then
    l.map (fun p => if p.1 = k then (k, v) else p)
  else
    l ++ [(k, v)]

/-- JS `obj[k]` (`none` for `undefined`). -/
def getInst (l : List (String × Nat)) (k : String) : Option Nat :=
  (l.find? (fun p => p.1 = k)).map (fun p => p.2)

/-- JS `delete obj[k]`. -/
def delInst (l : List (String × Nat)) (k : String) : List (String × Nat) :=
  l.filter (fun p => p.1 ≠ k)

structure DEntity where
  ComponentTypes : List String
  components : List (String × Nat)
  componentsToRemove : List (String × Nat)
  ComponentTypesToRemove : List String
deriving DecidableEq

structure DState where
  entity : DEntity
  pools : List (String × ObjectPool)
  listed : Bool
deriving DecidableEq

/-- `Entity.getRemovedComponent(Component)` (src lines 377-379). -/
def DState.getRemovedComponent (s : DState) (name : String) : Option Nat :=
  getInst s.entity.componentsToRemove name

/-- `Entity.hasComponent(Component)` (src lines 437-439). -/
def DState.hasComponent (s : DState) (name : String) : Prop :=
  name ∈ s.entity.ComponentTypes

instance (s : DState) (name : String) : Decidable (s.hasComponent name) := by
  unfold DState.hasComponent; infer_instance

/-- Look up the pool for a component type, keyed by `componentPropertyName`. -/
def DState.poolFor (s : DState) (name : String) : Option ObjectPool :=
  ((s.pools.find? (fun p => p.1 = componentPropertyName name)).map (fun p => p.2))

/-- Release `item` into the pool stored under key `pn`
(`this.componentsManager._componentPool[propName].release(component)`). -/
def releaseIntoPool (pools : List (String × ObjectPool)) (pn : String) (item : Nat) :
    List (String × ObjectPool) :=
  pools.map (fun p => if p.1 = pn then (p.1, p.2.release item) else p)

/-- `EntityManager.entityRemoveComponent(entity, Component, forceRemove=false)`
(src lines 745-768), deferred branch: register the entity in
`entitiesWithComponentsToRemove` if its pending list was empty, move the type
from the attached list to the pending list and the instance from `_components`
to `_componentsToRemove`.  (The trailing `QueryManager` notification does not
touch this state.) -/
def DState.removeComponentDeferred (s : DState) (name : String) : DState :=
  if name ∈ s.entity.ComponentTypes then
    let listed := if s.entity.ComponentTypesToRemove.isEmpty then true else s.listed
    let inst := (getInst s.entity.components name).getD 0
    { s with
      listed := listed,
      entity :=
        { ComponentTypes := s.entity.ComponentTypes.erase name,
          ComponentTypesToRemove := s.entity.ComponentTypesToRemove ++ [name],
          componentsToRemove := setInst s.entity.componentsToRemove name inst,
          components := delInst s.entity.components name } }
  else s

/-- One iteration of the `while` loop of `processDeferredRemoval`
(src lines 846-857): pop the last pending type, release its staged instance
into that type's pool, delete the staged entry. -/
def drainStep (e : DEntity) (pools : List (String × ObjectPool)) :
    DEntity × List (String × ObjectPool) :=
  match e.ComponentTypesToRemove.getLast? with
  | none => (e, pools)
  | some name =>
    let inst := (getInst e.componentsToRemove name).getD 0
    (( { e with ComponentTypesToRemove := e.ComponentTypesToRemove.dropLast,
                componentsToRemove := delInst e.componentsToRemove name }),
     releaseIntoPool pools (componentPropertyName name) inst)

def drain (e : DEntity) (pools : List (String × ObjectPool)) :
    Nat → DEntity × List (String × ObjectPool)
  | 0 => (e, pools)
  | n + 1 =>
    let (e1, p1) := drainStep e pools
    drain e1 p1 n

/-- `EntityManager.processDeferredRemoval()` (src lines 836-861) restricted to
C6's scenario: no entity is pending full removal, so only the
`entitiesWithComponentsToRemove` loop runs; it drains the single entity's
pending list and truncates the work list.  `World.execute` calls this after the
systems run (src lines 1069-1074); with no systems registered it is all
`World.execute` does. -/
def DState.processDeferredRemoval (s : DState) : DState :=
  if s.listed then
    let (e1, p1) := drain s.entity s.pools s.entity.ComponentTypesToRemove.length
    { entity := e1, pools := p1, listed := false }
  else s

/-! ## The query index (src lines 238-324, 565-669, 675-861)

The state the query-membership claims range over: the live queries
(`QueryManager._queries`, iterated in insertion order), the entity heap, the
live-entity vector `_entities`, and the two deferred work lists.  JS object
references become ids: `query.entities` holds entity ids, `entity.queries`
holds query ids.  Component types are opaque tags (`Nat`); component instances,
pools and event payloads do not influence membership and live in the other
fragments above. -/

/-- A component type (a class object; `indexOf` compares by reference). -/
abbrev CType := Nat

structure Entity where
  id : Nat
  ComponentTypes : List CType
  ComponentTypesToRemove : List CType
  queries : List Nat
deriving DecidableEq

structure Query where
  id : Nat
  Components : List CType
  NotComponents : List CType
  entities : List Nat
  reactive : Bool
deriving DecidableEq

structure EMState where
  store : List Entity
  alive : List Nat
  queries : List Query
  entitiesToRemove : List Nat
  entitiesWithComponentsToRemove : List Nat
deriving DecidableEq

/-- Dereference an entity id in the heap (the default is never reached in
well-formed states). -/
def getEntity (s : EMState) (eid : Nat) : Entity :=
  (s.store.find? (fun e => e.id = eid)).getD ⟨eid, [], [], []⟩

/-- Dereference a query id. -/
def getQueryById (s : EMState) (qid : Nat) : Query :=
  (s.queries.find? (fun q => q.id = qid)).getD ⟨qid, [], [], [], false⟩

/-- Mutate the entity object with id `eid` in place. -/
def updateEntity (s : EMState) (eid : Nat) (f : Entity → Entity) : EMState :=
  { s with store := s.store.map (fun e => if e.id = eid then f e else e) }

/-- Mutate the query object with id `qid` in place. -/
def updateQuery (s : EMState) (qid : Nat) (f : Query → Query) : EMState :=
  { s with queries := s.queries.map (fun q => if q.id = qid then f q else q) }

/-- `Entity.hasComponent(Component)` (src lines 437-439):
`~this._ComponentTypes.indexOf(Component)`. -/
def Entity.hasComponent (e : Entity) (T : CType) : Prop :=
  T ∈ e.ComponentTypes

instance (e : Entity) (T : CType) : Decidable (e.hasComponent T) := by
  unfold Entity.hasComponent; infer_instance

/-- `Entity.hasAllComponents(Components)` (src lines 449-454). -/
def Entity.hasAllComponents (e : Entity) (Ts : List CType) : Prop :=
  ∀ T ∈ Ts, e.hasComponent T

instance (e : Entity) (Ts : List CType) : Decidable (e.hasAllComponents Ts) := by
  unfold Entity.hasAllComponents; infer_instance

/-- `Entity.hasAnyComponents(Components)` (src lines 460-465). -/
def Entity.hasAnyComponents (e : Entity) (Ts : List CType) : Prop :=
  ∃ T ∈ Ts, e.hasComponent T

instance (e : Entity) (Ts : List CType) : Decidable (e.hasAnyComponents Ts) := by
  unfold Entity.hasAnyComponents; infer_instance

/-- `Query.match(entity)` (src lines 308-313). -/
def Query.matchesEntity (q : Query) (e : Entity) : Prop :=
  e.hasAllComponents q.Components ∧ ¬ e.hasAnyComponents q.NotComponents

instance (q : Query) (e : Entity) : Decidable (q.matchesEntity e) := by
  unfold Query.matchesEntity; infer_instance

/-- `Query.addEntity(entity)` (src lines 282-287): push the query onto the
entity's back-edge list, push the entity onto the query's vector, dispatch
ENTITY_ADDED (stateless here). -/
def queryAddEntity (s : EMState) (qid eid : Nat) : EMState :=
  updateQuery (updateEntity s eid (fun e => { e with queries := e.queries ++ [qid] }))
    qid (fun q => { q with entities := q.entities ++ [eid] })

/-- JS `arr.splice(arr.indexOf(x), 1)`: removes the first occurrence of `x`
when present, and — `splice(-1, 1)` — the last element when absent. -/
def spliceOut (l : List Nat) (x : Nat) : List Nat :=
  if x ∈ l then l.erase x else l.dropLast

/-- `Query.removeEntity(entity)` (src lines 293-306): when the entity is in the
query's vector, splice it out there and splice the query out of the entity's
back-edge list, then dispatch ENTITY_REMOVED (stateless here). -/
def queryRemoveEntity (s : EMState) (qid eid : Nat) : EMState :=
  if eid ∈ (getQueryById s qid).entities then
    updateEntity (updateQuery s qid (fun q => { q with entities := q.entities.erase eid }))
      eid (fun e => { e with queries := spliceOut e.queries qid })
  else s

/-- The body of the query loop of `QueryManager.onEntityComponentAdded`
(src lines 591-614). -/
def onAddedStep (eid : Nat) (T : CType) (s : EMState) (qid : Nat) : EMState :=
  let q := getQueryById s qid
  let e := getEntity s eid
  if T ∈ q.NotComponents ∧ eid ∈ q.entities then
    queryRemoveEntity s qid eid
  else if T ∉ q.Components ∨ ¬ q.matchesEntity e ∨ eid ∈ q.entities then
    s
  else
    queryAddEntity s qid eid

/-- `QueryManager.onEntityComponentAdded(entity, Component)`
(src lines 587-615): iterate the queries in the cache's insertion order.  The
loop body never adds or removes a query, so iterating the ids captured at entry
is the `for..in` of the source. -/
def onEntityComponentAdded (s : EMState) (eid : Nat) (T : CType) : EMState :=
  (s.queries.map (fun q => q.id)).foldl (onAddedStep eid T) s

/-- The body of the query loop of `QueryManager.onEntityComponentRemoved`
(src lines 623-643). -/
def onRemovedStep (eid : Nat) (T : CType) (s : EMState) (qid : Nat) : EMState :=
  let q := getQueryById s qid
  let e := getEntity s eid
  if T ∈ q.NotComponents ∧ eid ∉ q.entities ∧ q.matchesEntity e then
    queryAddEntity s qid eid
  else if T ∈ q.Components ∧ eid ∈ q.entities ∧ ¬ q.matchesEntity e then
    queryRemoveEntity s qid eid
  else s

/-- `QueryManager.onEntityComponentRemoved(entity, Component)`
(src lines 622-644). -/
def onEntityComponentRemoved (s : EMState) (eid : Nat) (T : CType) : EMState :=
  (s.queries.map (fun q => q.id)).foldl (onRemovedStep eid T) s

/-- The body of the query loop of `QueryManager.onEntityRemoved`
(src lines 573-580). -/
def onEntityRemovedStep (eid : Nat) (s : EMState) (qid : Nat) : EMState :=
  if qid ∈ (getEntity s eid).queries then queryRemoveEntity s qid eid else s

/-- `QueryManager.onEntityRemoved(entity)` (src lines 573-580). -/
def onEntityRemoved (s : EMState) (eid : Nat) : EMState :=
  (s.queries.map (fun q => q.id)).foldl (onEntityRemovedStep eid) s

/-- `EntityManager.entityAddComponent(entity, Component, values)`
(src lines 711-737): no-op when already attached; otherwise push the type,
aquire and initialise an instance (instances live in the deferred-removal
fragment), notify the query engine, bump the usage counter (component-manager
fragment), dispatch COMPONENT_ADDED. -/
def entityAddComponent (s : EMState) (eid : Nat) (T : CType) : EMState :=
  if T ∈ (getEntity s eid).ComponentTypes then s
  else
    let s1 := updateEntity s eid
      (fun e => { e with ComponentTypes := e.ComponentTypes ++ [T] })
    onEntityComponentAdded s1 eid T

/-- `EntityManager.entityRemoveComponent(entity, Component, forceRemove)`
(src lines 745-768): no-op when not attached.  Forced: splice the type out and
release the instance (instance/pool effects live in the other fragments).
Deferred: register the entity in `entitiesWithComponentsToRemove` if its
pending list was empty, splice the type out of the attached list, push it onto
the pending list (the instance moves between the maps of the instance
fragment).  Either way, notify the query engine afterwards. -/
def entityRemoveComponent (s : EMState) (eid : Nat) (T : CType)
    (forceRemove : Bool) : EMState :=
  if T ∉ (getEntity s eid).ComponentTypes then s
  else
    let s1 :=
      if forceRemove then
        updateEntity s eid
          (fun e => { e with ComponentTypes := e.ComponentTypes.erase T })
      else
        let s0 :=
          if (getEntity s eid).ComponentTypesToRemove.isEmpty then
            { s with entitiesWithComponentsToRemove :=
                s.entitiesWithComponentsToRemove ++ [eid] }
          else s
        updateEntity s0 eid
          (fun e => { e with ComponentTypes := e.ComponentTypes.erase T,
                             ComponentTypesToRemove := e.ComponentTypesToRemove ++ [T] })
    onEntityComponentRemoved s1 eid T

/-- `EntityManager.entityRemoveAllComponents(entity, forceRemove)`
(src lines 785-791): `for (j = Components.length - 1; j >= 0; j--)` over the
*live* `_ComponentTypes` array; each call splices out the element at the
current tail, so the loop removes the last attached type, `length` many
times. -/
def entityRemoveAllComponents (s : EMState) (eid : Nat) (forceRemove : Bool) :
    EMState :=
  go s ((getEntity s eid).ComponentTypes.length)
where
  go (s : EMState) : Nat → EMState
    | 0 => s
    | n + 1 =>
      go (entityRemoveComponent s eid
            ((getEntity s eid).ComponentTypes.getLastD 0) forceRemove) n

/-- `EntityManager.removeEntity(entity, forceRemove)` (src lines 798-813):
throws (`none`) when the entity is not in the live vector.  Otherwise dispatch
ENTITY_REMOVED, let the query engine drop the entity from every query on its
back-edge list, then either remove synchronously — splice out of `_entities`,
force-remove all components, release the entity record (heap record retained
here; the id pool lives in its own fragment) — or defer: stage removal of all
components and push onto `entitiesToRemove`. -/
def removeEntity (s : EMState) (eid : Nat) (forceRemove : Bool) : Option EMState :=
  if eid ∉ s.alive then none
  else some (
    let s1 := onEntityRemoved s eid
    if forceRemove then
      let s2 := { s1 with alive := s1.alive.erase eid }
      entityRemoveAllComponents s2 eid true
    else
      let s2 := entityRemoveAllComponents s1 eid false
      { s2 with entitiesToRemove := s2.entitiesToRemove ++ [eid] })

/-- `Entity.getMutableComponent(Component)` (src lines 398-411) walks the
entity's back-edge list and dispatches COMPONENT_CHANGED on each query whose
`reactive` flag is set, then returns the component.  Its observable output is
the sequence of query ids receiving the dispatch, in back-edge order, emitted
before the accessor returns. -/
def getMutableComponentDispatches (s : EMState) (eid : Nat) : List Nat :=
  ((getEntity s eid).queries.filter (fun qid => (getQueryById s qid).reactive))

/-! ### Well-formedness of the query-index state

These are the properties every state reachable through the public API has;
they are the hypotheses of the membership-invariant theorem and are themselves
shown to be preserved. -/

/-- The back-edge bookkeeping for one entity: a query is on the entity's
back-edge list exactly when the entity is in the query's vector. -/
def backEdgesOk (s : EMState) (e : Entity) : Prop :=
  ∀ q ∈ s.queries, (q.id ∈ e.queries ↔ e.id ∈ q.entities)

instance (s : EMState) (e : Entity) : Decidable (backEdgesOk s e) := by
  unfold backEdgesOk; infer_instance

/-- Claim C1's invariant: a live entity is in a live query's vector exactly
when it matches it. -/
def queryConsistent (s : EMState) : Prop :=
  ∀ q ∈ s.queries, ∀ e ∈ s.store, e.id ∈ s.alive →
    (e.id ∈ q.entities ↔ q.matchesEntity e)

instance (s : EMState) : Decidable (queryConsistent s) := by
  unfold queryConsistent; infer_instance

/-- Well-formedness of the query-index state. -/
def WF (s : EMState) : Prop :=
  (s.store.map (fun e => e.id)).Nodup ∧
  (s.queries.map (fun q => q.id)).Nodup ∧
  (∀ q ∈ s.queries, q.Components ≠ []) ∧
  (∀ q ∈ s.queries, q.entities.Nodup) ∧
  (∀ e ∈ s.store, e.ComponentTypes.Nodup) ∧
  (∀ e ∈ s.store, e.queries.Nodup) ∧
  (∀ e ∈ s.store, e.id ∈ s.alive → backEdgesOk s e) ∧
  (∀ e ∈ s.store, e.id ∈ s.alive → ∀ i ∈ e.queries, i ∈ s.queries.map (fun q => q.id)) ∧
  (∀ i ∈ s.alive, i ∈ s.store.map (fun e => e.id)) ∧
  queryConsistent s

instance (s : EMState) : Decidable (WF s) := by
  unfold WF; infer_instance

/-- Claim C2's invariant: no component type is both attached and staged for
deferred removal. -/
def pendingDisjoint (s : EMState) : Prop :=
  ∀ e ∈ s.store, ∀ T ∈ e.ComponentTypes, T ∉ e.ComponentTypesToRemove

instance (s : EMState) : Decidable (pendingDisjoint s) := by
  unfold pendingDisjoint; infer_instance

/-- The projection of an entity the component-type claims read (everything but
the query back-edges). -/
def entityData (e : Entity) : Nat × List CType × List CType :=
  (e.id, e.ComponentTypes, e.ComponentTypesToRemove)

/-- The bookkeeping facts that every iteration of the `QueryManager` loops
preserves about the entity being processed: distinct ids, duplicate-free
vectors, back-edge coherence for that entity (an id is on the entity's
back-edge list exactly when the entity is in that query's vector — for ids
with no query this forces the id off the back-edge list), and the entity being
present in the heap. -/
def LoopInv (s : EMState) (eid : Nat) : Prop :=
  (s.store.map (fun e => e.id)).Nodup ∧
  (s.queries.map (fun q => q.id)).Nodup ∧
  (∀ qid : Nat, (getQueryById s qid).entities.Nodup) ∧
  (∀ x : Nat, (getEntity s x).queries.Nodup) ∧
  (∀ qid : Nat, (qid ∈ (getEntity s eid).queries ↔ eid ∈ (getQueryById s qid).entities)) ∧
  eid ∈ s.store.map (fun e => e.id)

/-- What a mutation centred on entity `eid` leaves untouched: the live vector,
the heaps' id sequences, every other entity, every query's defining fields, and
every other entity's query memberships. -/
def FrameOn (eid : Nat) (s s' : EMState) : Prop :=
  s'.alive = s.alive ∧
  s'.store.map (fun e => e.id) = s.store.map (fun e => e.id) ∧
  s'.queries.map (fun q => q.id) = s.queries.map (fun q => q.id) ∧
  (∀ x, x ≠ eid → getEntity s' x = getEntity s x) ∧
  (∀ qid, (getQueryById s' qid).Components = (getQueryById s qid).Components ∧
          (getQueryById s' qid).NotComponents = (getQueryById s qid).NotComponents ∧
          (getQueryById s' qid).reactive = (getQueryById s qid).reactive) ∧
  (∀ qid x, x ≠ eid → (x ∈ (getQueryById s' qid).entities ↔ x ∈ (getQueryById s qid).entities))

/-! # Theorems -/

/-! ## Shared lemmas about association-list primitives -/

theorem find?_map_keyfixed {β : Type} (l : List (String × β)) (f : String × β → String × β)
    (hf : ∀ p, (f p).1 = p.1) (k : String) :
    (l.map f).find? (fun p => p.1 = k) = (l.find? (fun p => p.1 = k)).map f := by
  induction l with
  | nil => rfl
  | cons p l ih =>
    by_cases h : p.1 = k
    · rw [List.map_cons, List.find?_cons_of_pos, List.find?_cons_of_pos] <;>
        simp [hf, h]
    · rw [List.map_cons, List.find?_cons_of_neg, List.find?_cons_of_neg, ih] <;>
        simp [hf, h]

theorem find?_append' {α : Type} (l1 l2 : List α) (p : α → Bool) :
    (l1 ++ l2).find? p = ((l1.find? p).or (l2.find? p)) :=
  List.find?_append

/-- In a list with nodup keys, `find?` on a member's key returns that member. -/
theorem find?_key_of_mem {α β : Type} [DecidableEq β] (key : α → β) (l : List α)
    (hnd : (l.map key).Nodup) (a : α) (ha : a ∈ l) :
    l.find? (fun x => key x = key a) = some a := by
  induction l with
  | nil => exact absurd ha (List.not_mem_nil a)
  | cons b l ih =>
    simp only [List.map_cons, List.nodup_cons] at hnd
    by_cases hb : key b = key a
    · have hba : a = b := by
        rcases List.mem_cons.mp ha with h | h
        · exact h
        · exact absurd (hb ▸ List.mem_map.mpr ⟨a, h, rfl⟩) hnd.1
      rw [List.find?_cons_of_pos _ (by simpa using hb), hba]
    · have ha' : a ∈ l := by
        rcases List.mem_cons.mp ha with h | h
        · exact absurd (congrArg key h.symm) hb
        · exact h
      rw [List.find?_cons_of_neg _ (by simpa using hb), ih hnd.2 ha']

theorem lookupAssoc_setAssoc_self (l : List (String × Nat)) (k : String) (v : Nat) :
    lookupAssoc (setAssoc l k v) k = some v := by
  unfold setAssoc lookupAssoc
  by_cases h : l.any (fun p => p.1 = k)
  · rw [if_pos h]
    rw [find?_map_keyfixed _ _ (by intro p; by_cases hp : p.1 = k <;> simp [hp])]
    obtain ⟨p0, hp0mem, hp0key⟩ : ∃ p0 ∈ l, (p0.1 = k) = true := by
      simpa using List.any_eq_true.mp h
    cases hfind : l.find? (fun p => decide (p.1 = k)) with
    | none =>
      have := List.find?_eq_none.mp hfind p0 hp0mem
      simp [hp0key] at this
    | some p1 =>
      have hkey : p1.1 = k := by simpa using List.find?_some hfind
      simp [hkey]
  · rw [if_neg h]
    have hnone : l.find? (fun p => decide (p.1 = k)) = none := by
      rw [List.find?_eq_none]
      intro p hp
      simp only [List.any_eq_true] at h
      push_neg at h
      simpa using h p hp
    rw [find?_append', hnone]
    simp [List.find?]

theorem setAssoc_of_lookup (l : List (String × Nat)) (k : String) (v : Nat)
    (hnd : (l.map (fun p => p.1)).Nodup) (h : lookupAssoc l k = some v) :
    setAssoc l k v = l := by
  have hex : l.any (fun p => p.1 = k) = true := by
    unfold lookupAssoc at h
    cases hfind : l.find? (fun p => decide (p.1 = k)) with
    | none => rw [hfind] at h; simp at h
    | some p0 =>
      have hp0 : p0.1 = k := by simpa using List.find?_some hfind
      exact List.any_eq_true.mpr ⟨p0, List.mem_of_find?_eq_some hfind, by simpa using hp0⟩
  have hall : ∀ p ∈ l, (if p.1 = k then (k, v) else p) = p := by
    intro p hp
    by_cases hpk : p.1 = k
    · rw [if_pos hpk]
      have h1 : l.find? (fun x => x.1 = p.1) = some p :=
        find?_key_of_mem (fun x => x.1) l hnd p hp
      rw [hpk] at h1
      unfold lookupAssoc at h
      rw [h1] at h
      have hv : p.2 = v := by simpa using h
      cases p
      simp only at hpk hv
      simp [hpk, hv]
    · rw [if_neg hpk]
  unfold setAssoc
  rw [if_pos hex, List.map_congr_left hall, List.map_id']

/-! ## C3: pool growth arithmetic -/

/-- C3 counterexample: the claim says an empty-free-list `aquire` grows the
pool by `ceil(count * 0.2) + 1`; at `count = 1` the source
(`Math.round(1 * 0.2) + 1 = 1`) disagrees with `ceil(1 * 0.2) + 1 = 2`. -/
theorem c3_growth_counterexample :
    ¬ (∀ c : Nat, emptyAquireGrowth c = specCeil02 c + 1) :=
  fun h => absurd (h 1) (by decide)

/-- C3 (amended): an `aquire` on an empty free list grows the pool by exactly
`Math.round(count * 0.2) + 1` fresh instances — rounding, not ceiling — so a
fresh pool grows by 1 and a pool with `count = 100` grows by 21. -/
theorem c3_empty_aquire_growth (p : ObjectPool) (h : p.freeList = []) :
    ((p.aquire).2.count = p.count + (jsRound02 p.count + 1)) ∧
    ((p.aquire).2.freeList.length = jsRound02 p.count) := by
  unfold ObjectPool.aquire ObjectPool.expand
  simp [h]

theorem c3_empty_aquire_growth_witness :
    (((ObjectPool.mk [] 0).aquire).2.count = 0 + (jsRound02 0 + 1) ∧
      jsRound02 0 + 1 = 1) ∧
    (((ObjectPool.mk [] 100).aquire).2.count = 100 + (jsRound02 100 + 1) ∧
      jsRound02 100 + 1 = 21) :=
  ⟨⟨(c3_empty_aquire_growth ⟨[], 0⟩ rfl).1, by decide⟩,
   ⟨(c3_empty_aquire_growth ⟨[], 100⟩ rfl).1, by decide⟩⟩

/-! ## C4: re-registering a component type -/

/-- C4 counterexample: register type `A`, attach one instance (usage counter
becomes 1), register `A` again — the counter is reset to 0, so re-registration
is not a no-op on the per-type live count. -/
theorem c4_reregister_counterexample :
    (lookupAssoc (((ComponentManager.mk [] []).registerComponent "A" 7
        ).componentAddedToEntity "A").numComponents "A" = some 1) ∧
    (lookupAssoc ((((ComponentManager.mk [] []).registerComponent "A" 7
        ).componentAddedToEntity "A").registerComponent "A" 7).numComponents "A"
      = some 0) := by
  constructor <;> rfl

/-- C4 (amended): `registerComponent` on an already-registered type rewrites
the registry entry with the same type — leaving the registry unchanged — but
unconditionally resets the type's usage counter to 0. -/
theorem c4_reregister (m : ComponentManager) (name : String) (ty : Nat)
    (hnd : (m.Components.map (fun p => p.1)).Nodup)
    (h : lookupAssoc m.Components name = some ty) :
    ((m.registerComponent name ty).Components = m.Components) ∧
    (lookupAssoc (m.registerComponent name ty).numComponents name = some 0) := by
  unfold ComponentManager.registerComponent
  exact ⟨setAssoc_of_lookup _ _ _ hnd h, lookupAssoc_setAssoc_self _ _ _⟩

/-! ## C5: entity ids -/

theorem expandEntities_spec (n : Nat) : ∀ s : EntityIdState,
    (expandEntities s n).nextId = s.nextId + n ∧
    (expandEntities s n).poolCount = s.poolCount + n ∧
    (expandEntities s n).entities = s.entities ∧
    (expandEntities s n).freeList.length = s.freeList.length + n ∧
    (1 ≤ n → (expandEntities s n).freeList.getLastD ⟨0⟩ = ⟨s.nextId + n - 1⟩) := by
  induction n with
  | zero => intro s; simp [expandEntities]
  | succ n ih =>
    intro s
    obtain ⟨h1, h2, h3, h4, h5⟩ := ih
      { s with nextId := s.nextId + 1,
               freeList := s.freeList ++ [⟨s.nextId⟩],
               poolCount := s.poolCount + 1 }
    dsimp only at h1 h2 h3 h4 h5
    simp only [List.length_append, List.length_singleton] at h4
    refine ⟨by simp only [expandEntities]; rw [h1]; omega,
      by simp only [expandEntities]; rw [h2]; omega,
      by simp only [expandEntities]; rw [h3],
      by simp only [expandEntities]; rw [h4]; omega, ?_⟩
    intro _
    rcases Nat.eq_zero_or_pos n with hn | hn
    · subst hn
      simp only [expandEntities]
      simp [List.getLastD_eq_getLast?, List.getLast?_concat]
    · simp only [expandEntities]
      rw [h5 hn]
      congr 1
      omega

/-- C5 counterexample: create an entity on a fresh manager (it gets id 0 and
the counter moves to 1), force-remove it (`Entity.reset` runs at release time:
id 1, counter 2), then `createEntity` again: the recycled entity is returned
with id 1 even though the global counter stands at 2 at the moment of the call
— the id is assigned by `Entity.reset` during release, not during
`createEntity`. -/
theorem c5_createEntity_id_counterexample :
    ((createEntity (removeEntitySync ((createEntity ⟨0, [], 0, []⟩).2) ⟨0⟩)).1.id = 1) ∧
    ((removeEntitySync ((createEntity ⟨0, [], 0, []⟩).2) ⟨0⟩).nextId = 2) ∧
    (1 : Nat) ≠ 2 := by
  refine ⟨by rfl, by rfl, by decide⟩

/-- C5 (amended): when the entity pool's free list is empty, `createEntity`
returns a freshly constructed entity whose id is the last value the counter
produced during the call (so `id + 1` equals the counter after the call, and on
a brand-new pool — growth 1 — the id equals the counter at the moment of the
call); when the free list is non-empty, `createEntity` returns the most
recently released entity carrying the id that `Entity.reset` assigned at
release time, and the counter does not move during the call. -/
theorem c5_createEntity_id (s : EntityIdState) :
    (s.freeList = [] →
      ((createEntity s).1.id + 1 = (createEntity s).2.nextId ∧
       (createEntity s).2.nextId = s.nextId + (jsRound02 s.poolCount + 1))) ∧
    (s.freeList ≠ [] →
      ((createEntity s).2.nextId = s.nextId ∧
       s.freeList.getLast? = some (createEntity s).1)) := by
  constructor
  · intro h
    obtain ⟨h1, _, _, _, h5⟩ := expandEntities_spec (jsRound02 s.poolCount + 1) s
    unfold createEntity aquireEntity
    rw [h]
    simp only [List.length_nil, Nat.le_refl, if_pos]
    rw [h5 (Nat.le_add_left 1 _), h1]
    constructor
    · simp
      omega
    · rfl
  · intro h
    have hlen : ¬ s.freeList.length ≤ 0 := by
      simpa [Nat.pos_iff_ne_zero] using List.length_pos.mpr h
    unfold createEntity aquireEntity
    rw [if_neg hlen]
    refine ⟨rfl, ?_⟩
    show s.freeList.getLast? = some (s.freeList.getLastD ⟨0⟩)
    rw [List.getLastD_eq_getLast?]
    cases hl : s.freeList.getLast? with
    | none => exact absurd (List.getLast?_eq_none_iff.mp hl) h
    | some e => rfl

theorem c5_createEntity_id_witness :
    (((createEntity ⟨0, [], 0, []⟩).1.id + 1 = (createEntity ⟨0, [], 0, []⟩).2.nextId) ∧
     ((createEntity ⟨5, [⟨3⟩], 1, []⟩).2.nextId = 5) ∧
     ([(⟨3⟩ : PEntity)].getLast? = some (createEntity ⟨5, [⟨3⟩], 1, []⟩).1)) :=
  ⟨((c5_createEntity_id ⟨0, [], 0, []⟩).1 rfl).1,
   ((c5_createEntity_id ⟨5, [⟨3⟩], 1, []⟩).2 (by decide)).1,
   ((c5_createEntity_id ⟨5, [⟨3⟩], 1, []⟩).2 (by decide)).2⟩

/-! ## C7: query signature normalisation and deduplication -/

theorem getQuery_found (m : QueryCache) (spec : List QElem) (p : String × Nat)
    (hf : m.queries.find? (fun q => q.1 = queryKey spec) = some p) :
    m.getQuery spec = (p.2, m) := by
  simp only [QueryCache.getQuery, hf]

theorem getQuery_notfound (m : QueryCache) (spec : List QElem)
    (hf : m.queries.find? (fun q => q.1 = queryKey spec) = none) :
    m.getQuery spec = (m.nextQueryId,
      ⟨m.queries ++ [(queryKey spec, m.nextQueryId)], m.nextQueryId + 1⟩) := by
  simp only [QueryCache.getQuery, hf]

/-- C7: two specs carrying the same multiset of positive and negated component
types — same pushed names up to order and character case — produce the same
signature, and the second `getQuery` returns the very query object the first
one returned, leaving the cache untouched. -/
theorem c7_query_dedup (m : QueryCache) (spec1 spec2 : List QElem)
    (h : ((spec1.map QElem.pushedName).map jsToLower).Perm
         ((spec2.map QElem.pushedName).map jsToLower)) :
    (queryKey spec1 = queryKey spec2) ∧
    ((m.getQuery spec1).2.getQuery spec2 = ((m.getQuery spec1).1, (m.getQuery spec1).2)) := by
  have hkey : queryKey spec1 = queryKey spec2 := by
    unfold queryKey
    congr 1
    refine List.eq_of_perm_of_sorted ?_ (List.sorted_insertionSort _ _)
      (List.sorted_insertionSort _ _)
    exact ((List.perm_insertionSort _ _).trans h).trans
      (List.perm_insertionSort _ _).symm
  refine ⟨hkey, ?_⟩
  cases hf : m.queries.find? (fun q => q.1 = queryKey spec1) with
  | some p =>
    rw [getQuery_found m spec1 p hf]
    rw [getQuery_found m spec2 p (by rw [← hkey]; exact hf)]
  | none =>
    rw [getQuery_notfound m spec1 hf]
    have hf2 : (m.queries ++ [(queryKey spec1, m.nextQueryId)]).find?
        (fun q => q.1 = queryKey spec2) = some (queryKey spec1, m.nextQueryId) := by
      rw [← hkey, find?_append', hf]
      simp [List.find?]
    exact getQuery_found ⟨m.queries ++ [(queryKey spec1, m.nextQueryId)],
      m.nextQueryId + 1⟩ spec2 (queryKey spec1, m.nextQueryId) hf2

theorem c7_query_dedup_witness :
    (queryKey [QElem.pos "Position", QElem.neg "Velocity"] =
      queryKey [QElem.neg "VELOCITY", QElem.pos "position"]) ∧
    (((QueryCache.mk [] 0).getQuery [QElem.pos "Position", QElem.neg "Velocity"]).2.getQuery
        [QElem.neg "VELOCITY", QElem.pos "position"] =
      (((QueryCache.mk [] 0).getQuery [QElem.pos "Position", QElem.neg "Velocity"]).1,
       ((QueryCache.mk [] 0).getQuery [QElem.pos "Position", QElem.neg "Velocity"]).2)) :=
  c7_query_dedup ⟨[], 0⟩ [QElem.pos "Position", QElem.neg "Velocity"]
    [QElem.neg "VELOCITY", QElem.pos "position"] (by decide)

/-! ## C9: system priority ordering -/

theorem mkSystems_append (ps : List Int) (p : Int) :
    ∀ k, mkSystems (ps ++ [p]) k = mkSystems ps k ++ [⟨p, k + ps.length⟩] := by
  induction ps with
  | nil => intro k; simp [mkSystems]
  | cons q ps ih =>
    intro k
    rw [show (q :: ps) ++ [p] = q :: (ps ++ [p]) from rfl]
    rw [show mkSystems (q :: (ps ++ [p])) k = ⟨q, k⟩ :: mkSystems (ps ++ [p]) (k + 1)
      from rfl]
    rw [ih (k + 1)]
    rw [show mkSystems (q :: ps) k = ⟨q, k⟩ :: mkSystems ps (k + 1) from rfl]
    rw [show ((q :: ps) : List Int).length = ps.length + 1 from by simp]
    rw [show k + 1 + ps.length = k + (ps.length + 1) by omega]
    rfl

theorem mkSystems_length (ps : List Int) : ∀ k, (mkSystems ps k).length = ps.length := by
  induction ps with
  | nil => intro k; rfl
  | cons q ps ih => intro k; simp [mkSystems, ih (k + 1)]

theorem mkSystems_orders (ps : List Int) :
    ∀ k, (mkSystems ps k).map (fun s => s.order) = List.range' k ps.length := by
  induction ps with
  | nil => intro k; rfl
  | cons q ps ih =>
    intro k
    simp only [mkSystems, List.map_cons, ih (k + 1), List.length_cons]
    rfl

theorem registerAll_spec (ps : List Int) :
    (registerAll ps).systems.Perm (mkSystems ps 0) ∧
    (registerAll ps).systems.Sorted sysLe := by
  induction ps using List.reverseRecOn with
  | nil => exact ⟨List.Perm.refl _, List.sorted_nil⟩
  | append_singleton ps p ih =>
    have hstep : registerAll (ps ++ [p]) =
        SystemManager.registerSystem (registerAll ps) p := by
      unfold registerAll
      rw [List.foldl_append]
      rfl
    have hlen : (registerAll ps).systems.length = ps.length :=
      ih.1.length_eq.trans (mkSystems_length ps 0)
    constructor
    · rw [hstep]
      unfold SystemManager.registerSystem SystemManager.sortSystems
      refine (List.perm_insertionSort _ _).trans ?_
      rw [mkSystems_append ps p 0, hlen]
      exact List.Perm.append_right _ ih.1 |>.trans (by simp)
    · rw [hstep]
      exact List.sorted_insertionSort _ _

/-- C9: within a frame, systems execute in the order of the sorted system
vector; that order is strictly sorted by (priority, registration order) — a
lower priority runs first, ties run in registration order — and the vector
holds exactly the registered systems (`order` records the registration
index). -/
theorem c9_priority_order (ps : List Int) :
    (((registerAll ps).executionOrder).Pairwise
      (fun a b => a.priority < b.priority ∨
        (a.priority = b.priority ∧ a.order < b.order))) ∧
    (((registerAll ps).executionOrder).Perm (mkSystems ps 0)) := by
  obtain ⟨hperm, hsort⟩ := registerAll_spec ps
  refine ⟨?_, hperm⟩
  have hnd : ((registerAll ps).systems.map (fun s => s.order)).Nodup := by
    have h0 : ((mkSystems ps 0).map (fun s => s.order)).Nodup := by
      rw [mkSystems_orders]
      exact List.nodup_range' _ _
    exact ((hperm.map (fun s => s.order)).nodup_iff).mpr h0
  have hne : (registerAll ps).systems.Pairwise (fun a b => a.order ≠ b.order) := by
    rw [List.Nodup, List.pairwise_map] at hnd
    exact hnd
  refine (List.Pairwise.and hsort hne).imp ?_
  rintro a b ⟨hab, hne'⟩
  rcases hab with h | ⟨h1, h2⟩
  · exact Or.inl h
  · exact Or.inr ⟨h1, lt_of_le_of_ne h2 hne'⟩

/-! ## C10: listener deduplication -/

theorem c10_addEventListener_dedup (d : EventDispatcher) (n : String) (lid : Nat)
    (hvals : ∀ p ∈ d.listeners, p.2.Nodup) :
    ((d.addEventListener n lid).addEventListener n lid = d.addEventListener n lid) ∧
    (List.count lid ((d.addEventListener n lid).dispatchEvent n) = 1) := by
  have hkeyfix : ∀ p : String × List Nat,
      ((if p.1 = n then (p.1, if lid ∈ p.2 then p.2 else p.2 ++ [lid]) else p)).1 = p.1 := by
    intro p
    by_cases hp : p.1 = n <;> simp [hp]
  -- the base list the first add maps over, and its properties
  set ls : List (String × List Nat) :=
    if d.listeners.any (fun p => p.1 = n) then d.listeners
    else d.listeners ++ [(n, [])] with hls
  have hlsvals : ∀ p ∈ ls, p.2.Nodup := by
    intro p hp
    rw [hls] at hp
    split at hp
    · exact hvals p hp
    · rcases List.mem_append.mp hp with h | h
      · exact hvals p h
      · simp only [List.mem_singleton] at h
        subst h
        exact List.nodup_nil
  have hlsin : ∃ p ∈ ls, p.1 = n := by
    rw [hls]
    split
    · rename_i h
      simpa using List.any_eq_true.mp h
    · exact ⟨(n, []), List.mem_append_right _ (List.mem_singleton_self _), rfl⟩
  have hd1 : (d.addEventListener n lid).listeners =
      ls.map (fun p => if p.1 = n then (p.1, if lid ∈ p.2 then p.2 else p.2 ++ [lid]) else p) := by
    rw [EventDispatcher.addEventListener]
  -- every key-n entry after the add carries lid, with no duplicates
  have hpost : ∀ p ∈ (d.addEventListener n lid).listeners,
      p.1 = n → lid ∈ p.2 ∧ p.2.Nodup := by
    intro p hp hpn
    rw [hd1] at hp
    rcases List.mem_map.mp hp with ⟨p0, hp0, hfp⟩
    by_cases h0 : p0.1 = n
    · rw [if_pos h0] at hfp
      subst hfp
      dsimp only
      by_cases hmem : lid ∈ p0.2
      · rw [if_pos hmem]
        exact ⟨hmem, hlsvals p0 hp0⟩
      · rw [if_neg hmem]
        refine ⟨List.mem_append_right _ (by simp), ?_⟩
        refine List.Nodup.append (hlsvals p0 hp0) (List.nodup_singleton lid) ?_
        intro a ha hb
        simp only [List.mem_singleton] at hb
        exact hmem (hb ▸ ha)
    · rw [if_neg h0] at hfp
      subst hfp
      exact absurd hpn h0
  have hanypost : (d.addEventListener n lid).listeners.any (fun p => p.1 = n) = true := by
    rw [hd1]
    rcases hlsin with ⟨p0, hp0, hp0n⟩
    refine List.any_eq_true.mpr ⟨_, List.mem_map.mpr ⟨p0, hp0, rfl⟩, ?_⟩
    simp only [hkeyfix p0]
    exact decide_eq_true hp0n
  constructor
  · -- idempotence: the second add leaves the register structurally unchanged
    show EventDispatcher.addEventListener _ n lid = _
    rw [EventDispatcher.addEventListener]
    rw [if_pos hanypost]
    have : ∀ p ∈ (d.addEventListener n lid).listeners,
        (if p.1 = n then (p.1, if lid ∈ p.2 then p.2 else p.2 ++ [lid]) else p) = p := by
      intro p hp
      by_cases hpn : p.1 = n
      · rw [if_pos hpn, if_pos (hpost p hp hpn).1]
      · rw [if_neg hpn]
    rw [List.map_congr_left this, List.map_id']
  · -- the dispatched sequence contains the listener exactly once
    unfold EventDispatcher.dispatchEvent
    rw [hd1, find?_map_keyfixed _ _ hkeyfix]
    rcases hlsin with ⟨p0, hp0, hp0n⟩
    cases hfind : ls.find? (fun p => p.1 = n) with
    | none =>
      have := List.find?_eq_none.mp hfind p0 hp0
      exact absurd hp0n (by simpa using this)
    | some p1 =>
      have hk1 : p1.1 = n := by simpa using List.find?_some hfind
      have hnd1 : p1.2.Nodup := hlsvals p1 (List.mem_of_find?_eq_some hfind)
      simp only [Option.map_some', Option.getD_some]
      rw [if_pos hk1]
      dsimp only
      by_cases hmem : lid ∈ p1.2
      · rw [if_pos hmem]
        exact List.count_eq_one_of_mem hnd1 hmem
      · rw [if_neg hmem, List.count_append, List.count_eq_zero_of_not_mem hmem]
        simp

theorem c10_addEventListener_dedup_witness :
    ((EventDispatcher.mk [("evt", [5])]).addEventListener "evt" 7).addEventListener
        "evt" 7 =
      (EventDispatcher.mk [("evt", [5])]).addEventListener "evt" 7 ∧
    List.count 7 (((EventDispatcher.mk [("evt", [5])]).addEventListener "evt" 7
      ).dispatchEvent "evt") = 1 :=
  c10_addEventListener_dedup ⟨[("evt", [5])]⟩ "evt" 7 (by decide)

/-! ## C6: deferred component removal, staged instance and pool accounting -/

/-- C6: on an entity with pooled component `A` attached (and nothing else
staged), a non-forced `removeComponent(A)` makes `hasComponent(A)` false while
`getRemovedComponent(A)` still returns the staged instance and the pool is
untouched (its `totalUsed` still counts the instance); after the deferred
commit that `World.execute` performs, the pool's free list has grown by one and
`getRemovedComponent(A)` is `undefined`. -/
theorem c6_deferred_removal (s : DState) (A : String) (inst : Nat) (p : ObjectPool)
    (hA : A ∈ s.entity.ComponentTypes)
    (hnd : s.entity.ComponentTypes.Nodup)
    (hinst : getInst s.entity.components A = some inst)
    (hpend : s.entity.ComponentTypesToRemove = [])
    (hstag : s.entity.componentsToRemove = [])
    (hpool : s.poolFor A = some p) :
    (¬ (s.removeComponentDeferred A).hasComponent A) ∧
    ((s.removeComponentDeferred A).getRemovedComponent A = some inst) ∧
    ((s.removeComponentDeferred A).poolFor A = some p) ∧
    ((s.removeComponentDeferred A).processDeferredRemoval.getRemovedComponent A = none) ∧
    ((s.removeComponentDeferred A).processDeferredRemoval.poolFor A =
      some (p.release inst)) ∧
    ((p.release inst).totalFree = p.totalFree + 1) := by
  have hgA : getInst [(A, inst)] A = some inst := by
    unfold getInst
    rw [List.find?_cons_of_pos _ (by simp)]
    rfl
  have hdA : delInst [(A, inst)] A = [] := by
    unfold delInst
    simp [List.filter]
  have hstep : s.removeComponentDeferred A =
      { s with listed := true,
               entity := { ComponentTypes := s.entity.ComponentTypes.erase A,
                           ComponentTypesToRemove := [A],
                           componentsToRemove := [(A, inst)],
                           components := delInst s.entity.components A } } := by
    unfold DState.removeComponentDeferred
    rw [if_pos hA, hpend, hstag, hinst]
    simp [setInst]
  have hdrain : drain
      { ComponentTypes := s.entity.ComponentTypes.erase A,
        components := delInst s.entity.components A,
        componentsToRemove := [(A, inst)],
        ComponentTypesToRemove := [A] } s.pools (([A] : List String).length) =
      ({ ComponentTypes := s.entity.ComponentTypes.erase A,
         components := delInst s.entity.components A,
         componentsToRemove := [],
         ComponentTypesToRemove := [] },
       releaseIntoPool s.pools (componentPropertyName A) inst) := by
    rw [show ([A] : List String).length = 1 from rfl]
    unfold drain drainStep
    rw [show ([A] : List String).getLast? = some A from rfl]
    dsimp only
    rw [hgA, hdA]
    unfold drain
    rfl
  have hstep2 : (s.removeComponentDeferred A).processDeferredRemoval =
      { entity := { ComponentTypes := s.entity.ComponentTypes.erase A,
                    ComponentTypesToRemove := [],
                    componentsToRemove := [],
                    components := delInst s.entity.components A },
        pools := releaseIntoPool s.pools (componentPropertyName A) inst,
        listed := false } := by
    rw [hstep]
    unfold DState.processDeferredRemoval
    rw [if_pos rfl]
    dsimp only
    rw [hdrain]
  have hfind : ∃ q0, s.pools.find? (fun x => x.1 = componentPropertyName A) = some q0 ∧
      q0.2 = p ∧ q0.1 = componentPropertyName A := by
    unfold DState.poolFor at hpool
    cases hf : s.pools.find? (fun x => x.1 = componentPropertyName A) with
    | none => rw [hf] at hpool; simp at hpool
    | some q0 =>
      rw [hf] at hpool
      exact ⟨q0, rfl, by simpa using hpool, by simpa using List.find?_some hf⟩
  refine ⟨?_, ?_, ?_, ?_, ?_, ?_⟩
  · rw [hstep]
    unfold DState.hasComponent
    dsimp only
    rw [hnd.mem_erase_iff]
    simp
  · rw [hstep]
    unfold DState.getRemovedComponent
    exact hgA
  · rw [hstep]
    exact hpool
  · rw [hstep2]
    rfl
  · rw [hstep2]
    rcases hfind with ⟨q0, hf, hq2, hq1⟩
    unfold DState.poolFor releaseIntoPool
    dsimp only
    rw [find?_map_keyfixed _ _
      (by intro q; by_cases hq : q.1 = componentPropertyName A <;> simp [hq]), hf]
    simp [hq1, hq2]
  · unfold ObjectPool.release ObjectPool.totalFree
    simp

theorem c6_deferred_removal_witness :
    (¬ ((DState.mk ⟨["Velocity"], [("Velocity", 3)], [], []⟩
        [("velocity", ⟨[], 1⟩)] false).removeComponentDeferred "Velocity").hasComponent
        "Velocity") ∧
    (((DState.mk ⟨["Velocity"], [("Velocity", 3)], [], []⟩
        [("velocity", ⟨[], 1⟩)] false).removeComponentDeferred "Velocity"
       ).getRemovedComponent "Velocity" = some 3) ∧
    (((DState.mk ⟨["Velocity"], [("Velocity", 3)], [], []⟩
        [("velocity", ⟨[], 1⟩)] false).removeComponentDeferred "Velocity"
       ).poolFor "Velocity" = some ⟨[], 1⟩) ∧
    (((DState.mk ⟨["Velocity"], [("Velocity", 3)], [], []⟩
        [("velocity", ⟨[], 1⟩)] false).removeComponentDeferred "Velocity"
       ).processDeferredRemoval.getRemovedComponent "Velocity" = none) ∧
    (((DState.mk ⟨["Velocity"], [("Velocity", 3)], [], []⟩
        [("velocity", ⟨[], 1⟩)] false).removeComponentDeferred "Velocity"
       ).processDeferredRemoval.poolFor "Velocity" =
      some ((ObjectPool.mk [] 1).release 3)) ∧
    (((ObjectPool.mk [] 1).release 3).totalFree = (ObjectPool.mk [] 1).totalFree + 1) :=
  c6_deferred_removal ⟨⟨["Velocity"], [("Velocity", 3)], [], []⟩,
    [("velocity", ⟨[], 1⟩)], false⟩ "Velocity" 3 ⟨[], 1⟩
    (by decide) (by decide) (by decide) (by decide) (by decide) (by decide)

/-! ## Basic dereferencing lemmas for the query-index state -/

theorem getQueryById_of_mem (s : EMState) (q : Query) (hq : q ∈ s.queries)
    (hnd : (s.queries.map (fun x => x.id)).Nodup) : getQueryById s q.id = q := by
  unfold getQueryById
  rw [find?_key_of_mem (fun x => x.id) s.queries hnd q hq]
  rfl

theorem getEntity_of_mem (s : EMState) (e : Entity) (he : e ∈ s.store)
    (hnd : (s.store.map (fun x => x.id)).Nodup) : getEntity s e.id = e := by
  unfold getEntity
  rw [find?_key_of_mem (fun x => x.id) s.store hnd e he]
  rfl

theorem count_filter_pos {α : Type} [DecidableEq α] (p : α → Bool) (a : α)
    (h : p a = true) : ∀ l : List α, List.count a (l.filter p) = List.count a l := by
  intro l
  induction l with
  | nil => rfl
  | cons b l ih =>
    by_cases hb : b = a
    · subst hb
      rw [List.filter_cons_of_pos h, List.count_cons_self, List.count_cons_self, ih]
    · by_cases hp : p b = true
      · rw [List.filter_cons_of_pos hp, List.count_cons_of_ne (fun hh => hb hh.symm),
          List.count_cons_of_ne (fun hh => hb hh.symm), ih]
      · rw [List.filter_cons_of_neg (by simpa using hp),
          List.count_cons_of_ne (fun hh => hb hh.symm), ih]

theorem count_filter_neg {α : Type} [DecidableEq α] (p : α → Bool) (a : α)
    (h : p a = false) (l : List α) : List.count a (l.filter p) = 0 := by
  rw [List.count_eq_zero_of_not_mem]
  intro hmem
  rw [List.mem_filter] at hmem
  rw [h] at hmem
  exact absurd hmem.2 (by simp)

/-! ## C8: reactive dispatch on mutable access -/

/-- C8: `getMutableComponent` dispatches COMPONENT_CHANGED, before returning,
exactly once on every query of the entity's back-edge list whose `reactive`
flag is set, and never on a query whose flag is clear. -/
theorem c8_reactive_dispatch (s : EMState) (eid : Nat) (q : Query)
    (hq : q ∈ s.queries) (hqids : (s.queries.map (fun x => x.id)).Nodup)
    (heq : (getEntity s eid).queries.Nodup) :
    List.count q.id (getMutableComponentDispatches s eid) =
      if q.reactive = true ∧ q.id ∈ (getEntity s eid).queries then 1 else 0 := by
  unfold getMutableComponentDispatches
  have hqq : getQueryById s q.id = q := getQueryById_of_mem s q hq hqids
  by_cases hr : q.reactive = true
  · rw [count_filter_pos _ _ (by rw [hqq]; exact hr)]
    by_cases hmem : q.id ∈ (getEntity s eid).queries
    · rw [if_pos ⟨hr, hmem⟩]
      exact List.count_eq_one_of_mem heq hmem
    · rw [if_neg (fun h => hmem h.2)]
      exact List.count_eq_zero_of_not_mem hmem
  · rw [count_filter_neg _ _ (by rw [hqq]; simpa using hr)]
    rw [if_neg (fun h => hr h.1)]

theorem c8_reactive_dispatch_witness :
    (List.count 10 (getMutableComponentDispatches
        ⟨[⟨0, [1], [], [10, 11]⟩], [0],
         [⟨10, [1], [], [0], true⟩, ⟨11, [1], [], [0], false⟩], [], []⟩ 0) =
      if (true = true) ∧ 10 ∈ (getEntity
        ⟨[⟨0, [1], [], [10, 11]⟩], [0],
         [⟨10, [1], [], [0], true⟩, ⟨11, [1], [], [0], false⟩], [], []⟩ 0).queries
      then 1 else 0) ∧
    (List.count 11 (getMutableComponentDispatches
        ⟨[⟨0, [1], [], [10, 11]⟩], [0],
         [⟨10, [1], [], [0], true⟩, ⟨11, [1], [], [0], false⟩], [], []⟩ 0) =
      if (false = true) ∧ 11 ∈ (getEntity
        ⟨[⟨0, [1], [], [10, 11]⟩], [0],
         [⟨10, [1], [], [0], true⟩, ⟨11, [1], [], [0], false⟩], [], []⟩ 0).queries
      then 1 else 0) :=
  ⟨c8_reactive_dispatch _ 0 ⟨10, [1], [], [0], true⟩ (by decide) (by decide) (by decide),
   c8_reactive_dispatch _ 0 ⟨11, [1], [], [0], false⟩ (by decide) (by decide) (by decide)⟩

/-! ## C2: attached and pending-removal sets -/

/-- C2 counterexample: on an entity with component 5 attached, stage the
removal of 5 (deferred), then `addComponent(5)` again: afterwards type 5 is in
the attached list *and* still in the pending-removal list — the two sets are
not disjoint. -/
theorem c2_pending_disjoint_counterexample :
    5 ∈ (getEntity (entityAddComponent
          (entityRemoveComponent ⟨[⟨0, [5], [], []⟩], [0], [], [], []⟩ 0 5 false)
          0 5) 0).ComponentTypes ∧
    5 ∈ (getEntity (entityAddComponent
          (entityRemoveComponent ⟨[⟨0, [5], [], []⟩], [0], [], [], []⟩ 0 5 false)
          0 5) 0).ComponentTypesToRemove := by
  constructor <;> decide

theorem entityData_queryAddEntity (s : EMState) (qid eid : Nat) :
    (queryAddEntity s qid eid).store.map entityData = s.store.map entityData := by
  unfold queryAddEntity updateQuery updateEntity
  simp only [List.map_map]
  refine List.map_congr_left ?_
  intro e _
  by_cases h : e.id = eid <;> simp [Function.comp, h, entityData]

theorem entityData_queryRemoveEntity (s : EMState) (qid eid : Nat) :
    (queryRemoveEntity s qid eid).store.map entityData = s.store.map entityData := by
  unfold queryRemoveEntity
  split
  · unfold updateEntity updateQuery
    simp only [List.map_map]
    refine List.map_congr_left ?_
    intro e _
    by_cases h : e.id = eid <;> simp [Function.comp, h, entityData]
  · rfl

theorem entityData_foldl (step : EMState → Nat → EMState)
    (h : ∀ s qid, (step s qid).store.map entityData = s.store.map entityData) :
    ∀ (l : List Nat) (s : EMState),
      ((l.foldl step s).store.map entityData) = s.store.map entityData := by
  intro l
  induction l with
  | nil => intro s; rfl
  | cons a l ih => intro s; rw [List.foldl_cons, ih, h]

theorem entityData_onAddedStep (eid : Nat) (T : CType) (s : EMState) (qid : Nat) :
    (onAddedStep eid T s qid).store.map entityData = s.store.map entityData := by
  unfold onAddedStep
  dsimp only
  split
  · exact entityData_queryRemoveEntity _ _ _
  · split
    · rfl
    · exact entityData_queryAddEntity _ _ _

theorem entityData_onRemovedStep (eid : Nat) (T : CType) (s : EMState) (qid : Nat) :
    (onRemovedStep eid T s qid).store.map entityData = s.store.map entityData := by
  unfold onRemovedStep
  dsimp only
  split
  · exact entityData_queryAddEntity _ _ _
  · split
    · exact entityData_queryRemoveEntity _ _ _
    · rfl

theorem pendingDisjoint_of_map_eq (s s' : EMState)
    (h : s'.store.map entityData = s.store.map entityData)
    (hd : pendingDisjoint s) : pendingDisjoint s' := by
  intro e he T hT
  have hmem : entityData e ∈ s'.store.map entityData := List.mem_map.mpr ⟨e, he, rfl⟩
  rw [h] at hmem
  rcases List.mem_map.mp hmem with ⟨e0, he0, heq⟩
  unfold entityData at heq
  have h2 : e0.ComponentTypes = e.ComponentTypes := congrArg (fun p => p.2.1) heq
  have h3 : e0.ComponentTypesToRemove = e.ComponentTypesToRemove :=
    congrArg (fun p => p.2.2) heq
  rw [← h3]
  exact hd e0 he0 T (h2 ▸ hT)

/-- C2 (amended): a component type occurs in at most one of the attached set
and the pending-removal set as long as mutations go through
`entityRemoveComponent` (forced or deferred) and through `entityAddComponent`
for types *not* currently staged for deferred removal; calling
`entityAddComponent(T)` while `T` is staged, however, leaves `T` in both sets
(see the counterexample). -/
theorem c2_pending_disjoint (s : EMState) (eid : Nat) (T : CType) (f : Bool)
    (hd : pendingDisjoint s)
    (hn : ∀ e ∈ s.store, e.ComponentTypes.Nodup)
    (hnd : (s.store.map (fun x => x.id)).Nodup) :
    pendingDisjoint (entityRemoveComponent s eid T f) ∧
    (T ∉ (getEntity s eid).ComponentTypesToRemove →
      pendingDisjoint (entityAddComponent s eid T)) := by
  constructor
  · unfold entityRemoveComponent
    split
    · exact hd
    · refine pendingDisjoint_of_map_eq _ _
        (entityData_foldl _ (entityData_onRemovedStep eid T) _ _) ?_
      split
      · -- forced: the type is spliced out of the attached list
        intro e' he' x hx
        unfold updateEntity at he'
        simp only [List.mem_map] at he'
        rcases he' with ⟨e0, he0, he0'⟩
        by_cases he0id : e0.id = eid
        · rw [if_pos he0id] at he0'
          subst he0'
          simp only at hx ⊢
          exact hd e0 he0 x (List.mem_of_mem_erase hx)
        · rw [if_neg he0id] at he0'
          subst he0'
          exact hd e0 he0 x hx
      · -- deferred: the type moves from attached to pending
        intro e' he' x hx
        unfold updateEntity at he'
        simp only [List.mem_map] at he'
        rcases he' with ⟨e0, he0, he0'⟩
        have he0mem : e0 ∈ s.store := by
          split at he0
          · exact he0
          · exact he0
        by_cases he0id : e0.id = eid
        · rw [if_pos he0id] at he0'
          subst he0'
          simp only at hx ⊢
          have hxT : x ≠ T ∧ x ∈ e0.ComponentTypes :=
            ((hn e0 he0mem).mem_erase_iff).mp hx
          intro hmem
          rcases List.mem_append.mp hmem with h | h
          · exact hd e0 he0mem x hxT.2 h
          · exact hxT.1 (by simpa using h)
        · rw [if_neg he0id] at he0'
          subst he0'
          exact hd e0 he0mem x hx
  · intro hTpend
    unfold entityAddComponent
    split
    · exact hd
    · rename_i hTnotc
      refine pendingDisjoint_of_map_eq _ _
        (entityData_foldl _ (entityData_onAddedStep eid T) _ _) ?_
      intro e' he' x hx
      unfold updateEntity at he'
      simp only [List.mem_map] at he'
      rcases he' with ⟨e0, he0, he0'⟩
      by_cases he0id : e0.id = eid
      · rw [if_pos he0id] at he0'
        subst he0'
        simp only at hx ⊢
        have he0get : getEntity s eid = e0 := he0id ▸ getEntity_of_mem s e0 he0 hnd
        rcases List.mem_append.mp hx with h | h
        · exact hd e0 he0 x h
        · simp only [List.mem_singleton] at h
          subst h
          rw [← he0get]
          exact hTpend
      · rw [if_neg he0id] at he0'
        subst he0'
        exact hd e0 he0 x hx

/-! ## C1 infrastructure: access and frame lemmas -/

theorem find?_map_predstable {α : Type} (l : List α) (g : α → α) (p : α → Bool)
    (hg : ∀ a, p (g a) = p a) :
    (l.map g).find? p = (l.find? p).map g := by
  induction l with
  | nil => rfl
  | cons a l ih =>
    by_cases h : p a = true
    · rw [List.map_cons, List.find?_cons_of_pos _ ((hg a).trans h),
        List.find?_cons_of_pos _ h, Option.map_some']
    · rw [List.map_cons, List.find?_cons_of_neg _ (by rw [hg a]; simpa using h),
        List.find?_cons_of_neg _ (by simpa using h), ih]

theorem getEntity_updateEntity_self (s : EMState) (eid : Nat) (f : Entity → Entity)
    (hid : ∀ e, (f e).id = e.id) (hin : eid ∈ s.store.map (fun e => e.id)) :
    getEntity (updateEntity s eid f) eid = f (getEntity s eid) := by
  unfold getEntity updateEntity
  dsimp only
  rw [find?_map_predstable _ _ _ (fun e => by
    by_cases h : e.id = eid
    · rw [if_pos h]
      simp [hid e, h]
    · rw [if_neg h])]
  rcases List.mem_map.mp hin with ⟨e0, he0, hid0⟩
  cases hf : s.store.find? (fun e => e.id = eid) with
  | none =>
    have := List.find?_eq_none.mp hf e0 he0
    exact absurd hid0 (by simpa using this)
  | some e1 =>
    have h1 : e1.id = eid := by simpa using List.find?_some hf
    simp only [Option.map_some', Option.getD_some]
    rw [if_pos h1]

theorem getEntity_updateEntity_other (s : EMState) (eid x : Nat) (f : Entity → Entity)
    (hid : ∀ e, (f e).id = e.id) (hx : x ≠ eid) :
    getEntity (updateEntity s eid f) x = getEntity s x := by
  unfold getEntity updateEntity
  dsimp only
  rw [find?_map_predstable _ _ _ (fun e => by
    by_cases h : e.id = eid
    · rw [if_pos h]
      simp [hid e, h]
    · rw [if_neg h])]
  cases hf : s.store.find? (fun e => e.id = x) with
  | none => rfl
  | some e1 =>
    have h1 : e1.id = x := by simpa using List.find?_some hf
    simp only [Option.map_some', Option.getD_some]
    rw [if_neg (by rw [h1]; exact hx)]

theorem getQueryById_updateQuery_self (s : EMState) (qid : Nat) (f : Query → Query)
    (hid : ∀ q, (f q).id = q.id) (hin : qid ∈ s.queries.map (fun q => q.id)) :
    getQueryById (updateQuery s qid f) qid = f (getQueryById s qid) := by
  unfold getQueryById updateQuery
  dsimp only
  rw [find?_map_predstable _ _ _ (fun q => by
    by_cases h : q.id = qid
    · rw [if_pos h]
      simp [hid q, h]
    · rw [if_neg h])]
  rcases List.mem_map.mp hin with ⟨q0, hq0, hid0⟩
  cases hf : s.queries.find? (fun q => q.id = qid) with
  | none =>
    have := List.find?_eq_none.mp hf q0 hq0
    exact absurd hid0 (by simpa using this)
  | some q1 =>
    have h1 : q1.id = qid := by simpa using List.find?_some hf
    simp only [Option.map_some', Option.getD_some]
    rw [if_pos h1]

theorem getQueryById_updateQuery_other (s : EMState) (qid x : Nat) (f : Query → Query)
    (hid : ∀ q, (f q).id = q.id) (hx : x ≠ qid) :
    getQueryById (updateQuery s qid f) x = getQueryById s x := by
  unfold getQueryById updateQuery
  dsimp only
  rw [find?_map_predstable _ _ _ (fun q => by
    by_cases h : q.id = qid
    · rw [if_pos h]
      simp [hid q, h]
    · rw [if_neg h])]
  cases hf : s.queries.find? (fun q => q.id = x) with
  | none => rfl
  | some q1 =>
    have h1 : q1.id = x := by simpa using List.find?_some hf
    simp only [Option.map_some', Option.getD_some]
    rw [if_neg (by rw [h1]; exact hx)]

theorem getEntity_updateQuery (s : EMState) (qid : Nat) (f : Query → Query) (x : Nat) :
    getEntity (updateQuery s qid f) x = getEntity s x := rfl

theorem getQueryById_updateEntity (s : EMState) (eid : Nat) (f : Entity → Entity)
    (x : Nat) : getQueryById (updateEntity s eid f) x = getQueryById s x := rfl

theorem updateEntity_store_ids (s : EMState) (eid : Nat) (f : Entity → Entity)
    (hid : ∀ e, (f e).id = e.id) :
    (updateEntity s eid f).store.map (fun e => e.id) = s.store.map (fun e => e.id) := by
  unfold updateEntity
  dsimp only
  rw [List.map_map]
  refine List.map_congr_left ?_
  intro e _
  by_cases h : e.id = eid <;> simp [Function.comp, h, hid e]

theorem updateQuery_queries_ids (s : EMState) (qid : Nat) (f : Query → Query)
    (hid : ∀ q, (f q).id = q.id) :
    (updateQuery s qid f).queries.map (fun q => q.id) = s.queries.map (fun q => q.id) := by
  unfold updateQuery
  dsimp only
  rw [List.map_map]
  refine List.map_congr_left ?_
  intro q _
  by_cases h : q.id = qid <;> simp [Function.comp, h, hid q]

/-- `Query.match` only reads the entity's attached-type list. -/
theorem matchesEntity_congr (q : Query) (e e' : Entity)
    (h : e'.ComponentTypes = e.ComponentTypes) :
    q.matchesEntity e' ↔ q.matchesEntity e := by
  unfold Query.matchesEntity Entity.hasAllComponents Entity.hasAnyComponents
    Entity.hasComponent
  rw [h]

/-- `Query.match` only reads the query's positive/negated type lists and the
entity's attached-type list. -/
theorem matchesEntity_congr2 (q q' : Query) (e e' : Entity)
    (hC : q'.Components = q.Components) (hN : q'.NotComponents = q.NotComponents)
    (hct : e'.ComponentTypes = e.ComponentTypes) :
    q'.matchesEntity e' ↔ q.matchesEntity e := by
  unfold Query.matchesEntity Entity.hasAllComponents Entity.hasAnyComponents
    Entity.hasComponent
  rw [hC, hN, hct]

theorem FrameOn.refl {eid : Nat} (s : EMState) : FrameOn eid s s :=
  ⟨Eq.refl _, Eq.refl _, Eq.refl _, fun _ _ => Eq.refl _,
   fun _ => ⟨Eq.refl _, Eq.refl _, Eq.refl _⟩, fun _ _ _ => Iff.rfl⟩

theorem FrameOn.trans {eid : Nat} {s1 s2 s3 : EMState}
    (h1 : FrameOn eid s1 s2) (h2 : FrameOn eid s2 s3) : FrameOn eid s1 s3 := by
  obtain ⟨a1, b1, c1, d1, e1, f1⟩ := h1
  obtain ⟨a2, b2, c2, d2, e2, f2⟩ := h2
  refine ⟨a2.trans a1, b2.trans b1, c2.trans c1,
    fun x hx => (d2 x hx).trans (d1 x hx),
    fun qid => ⟨(e2 qid).1.trans (e1 qid).1, (e2 qid).2.1.trans (e1 qid).2.1,
      (e2 qid).2.2.trans (e1 qid).2.2⟩,
    fun qid x hx => (f2 qid x hx).trans (f1 qid x hx)⟩

theorem getQueryById_id (s : EMState) (qid : Nat) : (getQueryById s qid).id = qid := by
  unfold getQueryById
  cases hf : s.queries.find? (fun q => q.id = qid) with
  | none => rfl
  | some q => simpa using List.find?_some hf

theorem getEntity_id (s : EMState) (x : Nat) : (getEntity s x).id = x := by
  unfold getEntity
  cases hf : s.store.find? (fun e => e.id = x) with
  | none => rfl
  | some e => simpa using List.find?_some hf

theorem getQueryById_mem_or_default (s : EMState) (qid : Nat) :
    getQueryById s qid ∈ s.queries ∨ getQueryById s qid = ⟨qid, [], [], [], false⟩ := by
  unfold getQueryById
  cases hf : s.queries.find? (fun q => q.id = qid) with
  | none => exact Or.inr rfl
  | some q => exact Or.inl (List.mem_of_find?_eq_some hf)

theorem getEntity_mem_or_default (s : EMState) (x : Nat) :
    getEntity s x ∈ s.store ∨ getEntity s x = ⟨x, [], [], []⟩ := by
  unfold getEntity
  cases hf : s.store.find? (fun e => e.id = x) with
  | none => exact Or.inr rfl
  | some e => exact Or.inl (List.mem_of_find?_eq_some hf)

theorem getEntity_mem (s : EMState) (x : Nat) (hx : x ∈ s.store.map (fun e => e.id)) :
    getEntity s x ∈ s.store := by
  rcases getEntity_mem_or_default s x with h | h
  · exact h
  · rcases List.mem_map.mp hx with ⟨e0, he0, hid0⟩
    unfold getEntity at h ⊢
    cases hf : s.store.find? (fun e => e.id = x) with
    | none =>
      have := List.find?_eq_none.mp hf e0 he0
      exact absurd hid0 (by simpa using this)
    | some e => simpa [hf] using List.mem_of_find?_eq_some hf

theorem queryAddEntity_spec (s : EMState) (qid eid : Nat)
    (hinv : LoopInv s eid)
    (hqin : qid ∈ s.queries.map (fun q => q.id))
    (hnotin : eid ∉ (getQueryById s qid).entities) :
    LoopInv (queryAddEntity s qid eid) eid ∧
    FrameOn eid s (queryAddEntity s qid eid) ∧
    ((getEntity (queryAddEntity s qid eid) eid).ComponentTypes =
      (getEntity s eid).ComponentTypes) ∧
    ((getEntity (queryAddEntity s qid eid) eid).ComponentTypesToRemove =
      (getEntity s eid).ComponentTypesToRemove) ∧
    (eid ∈ (getQueryById (queryAddEntity s qid eid) qid).entities) ∧
    (∀ x, x ≠ qid → (getQueryById (queryAddEntity s qid eid) x).entities =
      (getQueryById s x).entities) := by
  obtain ⟨hsn, hqn, hQnd, hEnd, hco, hein⟩ := hinv
  have hE : getEntity (queryAddEntity s qid eid) eid =
      { getEntity s eid with queries := (getEntity s eid).queries ++ [qid] } := by
    unfold queryAddEntity
    rw [getEntity_updateQuery]
    exact getEntity_updateEntity_self s eid
      (fun e => { e with queries := e.queries ++ [qid] }) (fun _ => rfl) hein
  have hEo : ∀ x, x ≠ eid → getEntity (queryAddEntity s qid eid) x = getEntity s x := by
    intro x hx
    unfold queryAddEntity
    rw [getEntity_updateQuery]
    exact getEntity_updateEntity_other s eid x
      (fun e => { e with queries := e.queries ++ [qid] }) (fun _ => rfl) hx
  have hQ : getQueryById (queryAddEntity s qid eid) qid =
      { getQueryById s qid with entities := (getQueryById s qid).entities ++ [eid] } := by
    unfold queryAddEntity
    rw [getQueryById_updateQuery_self
      (updateEntity s eid (fun e => { e with queries := e.queries ++ [qid] })) qid
      (fun q => { q with entities := q.entities ++ [eid] }) (fun _ => rfl) hqin]
    rw [getQueryById_updateEntity]
  have hQo : ∀ x, x ≠ qid →
      getQueryById (queryAddEntity s qid eid) x = getQueryById s x := by
    intro x hx
    unfold queryAddEntity
    rw [getQueryById_updateQuery_other _ qid x
      (fun q => { q with entities := q.entities ++ [eid] }) (fun _ => rfl) hx]
    rw [getQueryById_updateEntity]
  have hsid : (queryAddEntity s qid eid).store.map (fun e => e.id) =
      s.store.map (fun e => e.id) := by
    unfold queryAddEntity
    exact updateEntity_store_ids s eid
      (fun e => { e with queries := e.queries ++ [qid] }) (fun _ => rfl)
  have hqid2 : (queryAddEntity s qid eid).queries.map (fun q => q.id) =
      s.queries.map (fun q => q.id) := by
    unfold queryAddEntity
    exact updateQuery_queries_ids _ qid
      (fun q => { q with entities := q.entities ++ [eid] }) (fun _ => rfl)
  have halive : (queryAddEntity s qid eid).alive = s.alive := rfl
  have hqnotine : qid ∉ (getEntity s eid).queries := fun hmem =>
    hnotin ((hco qid).mp hmem)
  refine ⟨⟨by rw [hsid]; exact hsn, by rw [hqid2]; exact hqn, ?_, ?_, ?_,
    by rw [hsid]; exact hein⟩, ⟨halive, hsid, hqid2, hEo, ?_, ?_⟩, ?_, ?_, ?_, ?_⟩
  · -- query vectors stay duplicate-free
    intro x
    by_cases hx : x = qid
    · subst hx
      rw [hQ]
      exact List.Nodup.append (hQnd x) (List.nodup_singleton eid)
        (fun a ha hb => hnotin ((List.mem_singleton.mp hb) ▸ ha))
    · rw [hQo x hx]
      exact hQnd x
  · -- back-edge lists stay duplicate-free
    intro x
    by_cases hx : x = eid
    · subst hx
      rw [hE]
      exact List.Nodup.append (hEnd x) (List.nodup_singleton qid)
        (fun a ha hb => hqnotine ((List.mem_singleton.mp hb) ▸ ha))
    · rw [hEo x hx]
      exact hEnd x
  · -- coherence
    intro x
    by_cases hx : x = qid
    · subst hx
      rw [hE, hQ]
      exact iff_of_true (List.mem_append_right _ (List.mem_singleton_self _))
        (List.mem_append_right _ (List.mem_singleton_self _))
    · rw [hE, hQo x hx]
      constructor
      · intro hmem
        rcases List.mem_append.mp hmem with h | h
        · exact (hco x).mp h
        · exact absurd (List.mem_singleton.mp h) hx
      · intro hmem
        exact List.mem_append_left _ ((hco x).mpr hmem)
  · -- query-defining fields unchanged
    intro x
    by_cases hx : x = qid
    · subst hx
      rw [hQ]
      exact ⟨rfl, rfl, rfl⟩
    · rw [hQo x hx]
      exact ⟨rfl, rfl, rfl⟩
  · -- other entities' memberships unchanged
    intro x y hy
    by_cases hx : x = qid
    · subst hx
      rw [hQ]
      constructor
      · intro hmem
        rcases List.mem_append.mp hmem with h | h
        · exact h
        · exact absurd (List.mem_singleton.mp h) hy
      · exact fun hmem => List.mem_append_left _ hmem
    · rw [hQo x hx]
  · rw [hE]
  · rw [hE]
  · rw [hQ]
    exact List.mem_append_right _ (List.mem_singleton_self _)
  · intro x hx
    rw [hQo x hx]

theorem queryRemoveEntity_spec (s : EMState) (qid eid : Nat)
    (hinv : LoopInv s eid)
    (hqin : qid ∈ s.queries.map (fun q => q.id)) :
    LoopInv (queryRemoveEntity s qid eid) eid ∧
    FrameOn eid s (queryRemoveEntity s qid eid) ∧
    ((getEntity (queryRemoveEntity s qid eid) eid).ComponentTypes =
      (getEntity s eid).ComponentTypes) ∧
    ((getEntity (queryRemoveEntity s qid eid) eid).ComponentTypesToRemove =
      (getEntity s eid).ComponentTypesToRemove) ∧
    (eid ∉ (getQueryById (queryRemoveEntity s qid eid) qid).entities) ∧
    (∀ x, x ≠ qid → (getQueryById (queryRemoveEntity s qid eid) x).entities =
      (getQueryById s x).entities) := by
  obtain ⟨hsn, hqn, hQnd, hEnd, hco, hein⟩ := hinv
  by_cases hmem : eid ∈ (getQueryById s qid).entities
  case neg =>
    have hs : queryRemoveEntity s qid eid = s := by
      unfold queryRemoveEntity
      rw [if_neg hmem]
    rw [hs]
    exact ⟨⟨hsn, hqn, hQnd, hEnd, hco, hein⟩, FrameOn.refl s, rfl, rfl, hmem,
      fun _ _ => rfl⟩
  case pos =>
    have hqe : qid ∈ (getEntity s eid).queries := (hco qid).mpr hmem
    have hsplice : spliceOut (getEntity s eid).queries qid =
        (getEntity s eid).queries.erase qid := by
      unfold spliceOut
      rw [if_pos hqe]
    have hs : queryRemoveEntity s qid eid =
        updateEntity (updateQuery s qid
          (fun q => { q with entities := q.entities.erase eid })) eid
          (fun e => { e with queries := spliceOut e.queries qid }) := by
      unfold queryRemoveEntity
      rw [if_pos hmem]
    have hE : getEntity (queryRemoveEntity s qid eid) eid =
        { getEntity s eid with queries := (getEntity s eid).queries.erase qid } := by
      rw [hs]
      rw [getEntity_updateEntity_self
        (updateQuery s qid (fun q => { q with entities := q.entities.erase eid })) eid
        (fun e => { e with queries := spliceOut e.queries qid }) (fun _ => rfl) hein]
      rw [getEntity_updateQuery]
      rw [hsplice]
    have hEo : ∀ x, x ≠ eid →
        getEntity (queryRemoveEntity s qid eid) x = getEntity s x := by
      intro x hx
      rw [hs, getEntity_updateEntity_other _ eid x
        (fun e => { e with queries := spliceOut e.queries qid }) (fun _ => rfl) hx,
        getEntity_updateQuery]
    have hQ : getQueryById (queryRemoveEntity s qid eid) qid =
        { getQueryById s qid with entities := (getQueryById s qid).entities.erase eid } := by
      rw [hs, getQueryById_updateEntity,
        getQueryById_updateQuery_self s qid
          (fun q => { q with entities := q.entities.erase eid }) (fun _ => rfl) hqin]
    have hQo : ∀ x, x ≠ qid →
        getQueryById (queryRemoveEntity s qid eid) x = getQueryById s x := by
      intro x hx
      rw [hs, getQueryById_updateEntity,
        getQueryById_updateQuery_other _ qid x
          (fun q => { q with entities := q.entities.erase eid }) (fun _ => rfl) hx]
    have hsid : (queryRemoveEntity s qid eid).store.map (fun e => e.id) =
        s.store.map (fun e => e.id) := by
      rw [hs]
      exact updateEntity_store_ids _ eid
        (fun e => { e with queries := spliceOut e.queries qid }) (fun _ => rfl)
    have hqid2 : (queryRemoveEntity s qid eid).queries.map (fun q => q.id) =
        s.queries.map (fun q => q.id) := by
      rw [hs]
      exact updateQuery_queries_ids _ qid
        (fun q => { q with entities := q.entities.erase eid }) (fun _ => rfl)
    have halive : (queryRemoveEntity s qid eid).alive = s.alive := by rw [hs]; rfl
    refine ⟨⟨by rw [hsid]; exact hsn, by rw [hqid2]; exact hqn, ?_, ?_, ?_,
      by rw [hsid]; exact hein⟩, ⟨halive, hsid, hqid2, hEo, ?_, ?_⟩, ?_, ?_, ?_, ?_⟩
    · intro x
      by_cases hx : x = qid
      · subst hx
        rw [hQ]
        exact (hQnd x).erase eid
      · rw [hQo x hx]
        exact hQnd x
    · intro x
      by_cases hx : x = eid
      · subst hx
        rw [hE]
        exact (hEnd x).erase qid
      · rw [hEo x hx]
        exact hEnd x
    · intro x
      by_cases hx : x = qid
      · subst hx
        rw [hE, hQ]
        refine iff_of_false ?_ ?_
        · intro hc
          exact absurd rfl (((hEnd eid).mem_erase_iff.mp hc).1)
        · intro hc
          exact absurd rfl (((hQnd x).mem_erase_iff.mp hc).1)
      · rw [hE, hQo x hx]
        rw [List.mem_erase_of_ne hx]
        exact hco x
    · intro x
      by_cases hx : x = qid
      · subst hx
        rw [hQ]
        exact ⟨rfl, rfl, rfl⟩
      · rw [hQo x hx]
        exact ⟨rfl, rfl, rfl⟩
    · intro x y hy
      by_cases hx : x = qid
      · subst hx
        rw [hQ]
        exact List.mem_erase_of_ne hy
      · rw [hQo x hx]
    · rw [hE]
    · rw [hE]
    · rw [hQ]
      intro hc
      exact absurd rfl (((hQnd qid).mem_erase_iff.mp hc).1)
    · intro x hx
      rw [hQo x hx]

theorem onAddedStep_spec (s : EMState) (eid : Nat) (T : CType) (qid : Nat)
    (hinv : LoopInv s eid) (hqin : qid ∈ s.queries.map (fun q => q.id)) :
    LoopInv (onAddedStep eid T s qid) eid ∧
    FrameOn eid s (onAddedStep eid T s qid) ∧
    ((getEntity (onAddedStep eid T s qid) eid).ComponentTypes =
      (getEntity s eid).ComponentTypes) ∧
    ((getEntity (onAddedStep eid T s qid) eid).ComponentTypesToRemove =
      (getEntity s eid).ComponentTypesToRemove) ∧
    ((T ∈ (getQueryById s qid).NotComponents ∧ eid ∈ (getQueryById s qid).entities) →
      eid ∉ (getQueryById (onAddedStep eid T s qid) qid).entities) ∧
    (¬(T ∈ (getQueryById s qid).NotComponents ∧ eid ∈ (getQueryById s qid).entities) →
      (T ∈ (getQueryById s qid).Components ∧
        (getQueryById s qid).matchesEntity (getEntity s eid) ∧
        eid ∉ (getQueryById s qid).entities) →
      eid ∈ (getQueryById (onAddedStep eid T s qid) qid).entities) ∧
    (¬(T ∈ (getQueryById s qid).NotComponents ∧ eid ∈ (getQueryById s qid).entities) →
      ¬(T ∈ (getQueryById s qid).Components ∧
        (getQueryById s qid).matchesEntity (getEntity s eid) ∧
        eid ∉ (getQueryById s qid).entities) →
      (eid ∈ (getQueryById (onAddedStep eid T s qid) qid).entities ↔
       eid ∈ (getQueryById s qid).entities)) ∧
    (∀ x, x ≠ qid → (getQueryById (onAddedStep eid T s qid) x).entities =
      (getQueryById s x).entities) := by
  by_cases h1 : T ∈ (getQueryById s qid).NotComponents ∧ eid ∈ (getQueryById s qid).entities
  · have hres : onAddedStep eid T s qid = queryRemoveEntity s qid eid := by
      unfold onAddedStep
      dsimp only
      rw [if_pos h1]
    obtain ⟨l, f, c1, c2, hout, hoth⟩ := queryRemoveEntity_spec s qid eid hinv hqin
    rw [hres]
    exact ⟨l, f, c1, c2, fun _ => hout, fun h => absurd h1 h, fun h => absurd h1 h, hoth⟩
  · by_cases h2 : T ∉ (getQueryById s qid).Components ∨
        ¬ (getQueryById s qid).matchesEntity (getEntity s eid) ∨
        eid ∈ (getQueryById s qid).entities
    · have hres : onAddedStep eid T s qid = s := by
        unfold onAddedStep
        dsimp only
        rw [if_neg h1, if_pos h2]
      rw [hres]
      refine ⟨hinv, FrameOn.refl s, rfl, rfl, fun h => absurd h h1, ?_,
        fun _ _ => Iff.rfl, fun _ _ => rfl⟩
      intro _ hB
      rcases h2 with h | h | h
      · exact absurd hB.1 h
      · exact absurd hB.2.1 h
      · exact absurd h hB.2.2
    · have hB : T ∈ (getQueryById s qid).Components ∧
          (getQueryById s qid).matchesEntity (getEntity s eid) ∧
          eid ∉ (getQueryById s qid).entities := by
        push_neg at h2
        exact ⟨h2.1, h2.2.1, h2.2.2⟩
      have hres : onAddedStep eid T s qid = queryAddEntity s qid eid := by
        unfold onAddedStep
        dsimp only
        rw [if_neg h1, if_neg h2]
      obtain ⟨l, f, c1, c2, hout, hoth⟩ :=
        queryAddEntity_spec s qid eid hinv hqin hB.2.2
      rw [hres]
      exact ⟨l, f, c1, c2, fun h => absurd h h1, fun _ _ => hout,
        fun _ hnB => absurd hB hnB, hoth⟩

theorem onRemovedStep_spec (s : EMState) (eid : Nat) (T : CType) (qid : Nat)
    (hinv : LoopInv s eid) (hqin : qid ∈ s.queries.map (fun q => q.id)) :
    LoopInv (onRemovedStep eid T s qid) eid ∧
    FrameOn eid s (onRemovedStep eid T s qid) ∧
    ((getEntity (onRemovedStep eid T s qid) eid).ComponentTypes =
      (getEntity s eid).ComponentTypes) ∧
    ((getEntity (onRemovedStep eid T s qid) eid).ComponentTypesToRemove =
      (getEntity s eid).ComponentTypesToRemove) ∧
    ((T ∈ (getQueryById s qid).NotComponents ∧ eid ∉ (getQueryById s qid).entities ∧
        (getQueryById s qid).matchesEntity (getEntity s eid)) →
      eid ∈ (getQueryById (onRemovedStep eid T s qid) qid).entities) ∧
    (¬(T ∈ (getQueryById s qid).NotComponents ∧ eid ∉ (getQueryById s qid).entities ∧
        (getQueryById s qid).matchesEntity (getEntity s eid)) →
      (T ∈ (getQueryById s qid).Components ∧ eid ∈ (getQueryById s qid).entities ∧
        ¬ (getQueryById s qid).matchesEntity (getEntity s eid)) →
      eid ∉ (getQueryById (onRemovedStep eid T s qid) qid).entities) ∧
    (¬(T ∈ (getQueryById s qid).NotComponents ∧ eid ∉ (getQueryById s qid).entities ∧
        (getQueryById s qid).matchesEntity (getEntity s eid)) →
      ¬(T ∈ (getQueryById s qid).Components ∧ eid ∈ (getQueryById s qid).entities ∧
        ¬ (getQueryById s qid).matchesEntity (getEntity s eid)) →
      (eid ∈ (getQueryById (onRemovedStep eid T s qid) qid).entities ↔
       eid ∈ (getQueryById s qid).entities)) ∧
    (∀ x, x ≠ qid → (getQueryById (onRemovedStep eid T s qid) x).entities =
      (getQueryById s x).entities) := by
  by_cases h1 : T ∈ (getQueryById s qid).NotComponents ∧
      eid ∉ (getQueryById s qid).entities ∧
      (getQueryById s qid).matchesEntity (getEntity s eid)
  · have hres : onRemovedStep eid T s qid = queryAddEntity s qid eid := by
      unfold onRemovedStep
      dsimp only
      rw [if_pos h1]
    obtain ⟨l, f, c1, c2, hout, hoth⟩ :=
      queryAddEntity_spec s qid eid hinv hqin h1.2.1
    rw [hres]
    exact ⟨l, f, c1, c2, fun _ => hout, fun h => absurd h1 h, fun h => absurd h1 h, hoth⟩
  · by_cases h2 : T ∈ (getQueryById s qid).Components ∧
        eid ∈ (getQueryById s qid).entities ∧
        ¬ (getQueryById s qid).matchesEntity (getEntity s eid)
    · have hres : onRemovedStep eid T s qid = queryRemoveEntity s qid eid := by
        unfold onRemovedStep
        dsimp only
        rw [if_neg h1, if_pos h2]
      obtain ⟨l, f, c1, c2, hout, hoth⟩ := queryRemoveEntity_spec s qid eid hinv hqin
      rw [hres]
      exact ⟨l, f, c1, c2, fun h => absurd h h1, fun _ _ => hout,
        fun _ hnB => absurd h2 hnB, hoth⟩
    · have hres : onRemovedStep eid T s qid = s := by
        unfold onRemovedStep
        dsimp only
        rw [if_neg h1, if_neg h2]
      rw [hres]
      exact ⟨hinv, FrameOn.refl s, rfl, rfl, fun h => absurd h h1,
        fun _ hB => absurd hB h2, fun _ _ => Iff.rfl, fun _ _ => rfl⟩

theorem onEntityRemovedStep_spec (s : EMState) (eid : Nat) (qid : Nat)
    (hinv : LoopInv s eid) (hqin : qid ∈ s.queries.map (fun q => q.id)) :
    LoopInv (onEntityRemovedStep eid s qid) eid ∧
    FrameOn eid s (onEntityRemovedStep eid s qid) ∧
    ((getEntity (onEntityRemovedStep eid s qid) eid).ComponentTypes =
      (getEntity s eid).ComponentTypes) ∧
    ((getEntity (onEntityRemovedStep eid s qid) eid).ComponentTypesToRemove =
      (getEntity s eid).ComponentTypesToRemove) ∧
    (eid ∉ (getQueryById (onEntityRemovedStep eid s qid) qid).entities) ∧
    (∀ x, x ≠ qid → (getQueryById (onEntityRemovedStep eid s qid) x).entities =
      (getQueryById s x).entities) := by
  by_cases h : qid ∈ (getEntity s eid).queries
  · have hres : onEntityRemovedStep eid s qid = queryRemoveEntity s qid eid := by
      unfold onEntityRemovedStep
      rw [if_pos h]
    obtain ⟨l, f, c1, c2, hout, hoth⟩ := queryRemoveEntity_spec s qid eid hinv hqin
    rw [hres]
    exact ⟨l, f, c1, c2, hout, hoth⟩
  · have hres : onEntityRemovedStep eid s qid = s := by
      unfold onEntityRemovedStep
      rw [if_neg h]
    rw [hres]
    refine ⟨hinv, FrameOn.refl s, rfl, rfl, ?_, fun _ _ => rfl⟩
    intro hc
    exact h ((hinv.2.2.2.2.1 qid).mpr hc)

theorem onAdded_fold (eid : Nat) (T : CType) :
    ∀ (qids : List Nat) (s : EMState),
      qids.Nodup →
      (∀ i ∈ qids, i ∈ s.queries.map (fun q => q.id)) →
      LoopInv s eid →
      LoopInv (qids.foldl (onAddedStep eid T) s) eid ∧
      FrameOn eid s (qids.foldl (onAddedStep eid T) s) ∧
      ((getEntity (qids.foldl (onAddedStep eid T) s) eid).ComponentTypes =
        (getEntity s eid).ComponentTypes) ∧
      ((getEntity (qids.foldl (onAddedStep eid T) s) eid).ComponentTypesToRemove =
        (getEntity s eid).ComponentTypesToRemove) ∧
      (∀ qid ∈ qids,
        ((T ∈ (getQueryById s qid).NotComponents ∧ eid ∈ (getQueryById s qid).entities) →
          eid ∉ (getQueryById (qids.foldl (onAddedStep eid T) s) qid).entities) ∧
        (¬(T ∈ (getQueryById s qid).NotComponents ∧ eid ∈ (getQueryById s qid).entities) →
          (T ∈ (getQueryById s qid).Components ∧
            (getQueryById s qid).matchesEntity (getEntity s eid) ∧
            eid ∉ (getQueryById s qid).entities) →
          eid ∈ (getQueryById (qids.foldl (onAddedStep eid T) s) qid).entities) ∧
        (¬(T ∈ (getQueryById s qid).NotComponents ∧ eid ∈ (getQueryById s qid).entities) →
          ¬(T ∈ (getQueryById s qid).Components ∧
            (getQueryById s qid).matchesEntity (getEntity s eid) ∧
            eid ∉ (getQueryById s qid).entities) →
          (eid ∈ (getQueryById (qids.foldl (onAddedStep eid T) s) qid).entities ↔
           eid ∈ (getQueryById s qid).entities))) ∧
      (∀ x, x ∉ qids → (getQueryById (qids.foldl (onAddedStep eid T) s) x).entities =
        (getQueryById s x).entities) := by
  intro qids
  induction qids with
  | nil =>
    intro s _ _ hinv
    exact ⟨hinv, FrameOn.refl s, rfl, rfl, fun _ h => absurd h (List.not_mem_nil _),
      fun _ _ => rfl⟩
  | cons qid rest ih =>
    intro s hnd hsub hinv
    obtain ⟨hqnotin, hndrest⟩ := List.nodup_cons.mp hnd
    obtain ⟨sl, sf, sct, sctr, so1, so2, so3, soth⟩ :=
      onAddedStep_spec s eid T qid hinv (hsub qid (List.mem_cons_self _ _))
    have hsub1 : ∀ i ∈ rest, i ∈ (onAddedStep eid T s qid).queries.map (fun q => q.id) := by
      intro i hi
      rw [sf.2.2.1]
      exact hsub i (List.mem_cons_of_mem _ hi)
    obtain ⟨il, ifr, ict, ictr, iout, ioth⟩ := ih (onAddedStep eid T s qid) hndrest hsub1 sl
    rw [List.foldl_cons]
    refine ⟨il, FrameOn.trans sf ifr, ict.trans sct, ictr.trans sctr, ?_, ?_⟩
    · intro x hx
      rcases List.mem_cons.mp hx with hx1 | hx2
      · subst hx1
        have hun : (getQueryById (rest.foldl (onAddedStep eid T)
              (onAddedStep eid T s x)) x).entities =
            (getQueryById (onAddedStep eid T s x) x).entities := ioth x hqnotin
        refine ⟨?_, ?_, ?_⟩
        · intro hA
          rw [hun]
          exact so1 hA
        · intro hA hB
          rw [hun]
          exact so2 hA hB
        · intro hA hB
          rw [hun]
          exact so3 hA hB
      · have hxne : x ≠ qid := fun h => hqnotin (h ▸ hx2)
        have hent : (getQueryById (onAddedStep eid T s qid) x).entities =
            (getQueryById s x).entities := soth x hxne
        have hfieldsx := sf.2.2.2.2.1 x
        have hmatch : (getQueryById (onAddedStep eid T s qid) x).matchesEntity
              (getEntity (onAddedStep eid T s qid) eid) ↔
            (getQueryById s x).matchesEntity (getEntity s eid) :=
          matchesEntity_congr2 _ _ _ _ hfieldsx.1 hfieldsx.2.1 sct
        have hAiff : (T ∈ (getQueryById (onAddedStep eid T s qid) x).NotComponents ∧
              eid ∈ (getQueryById (onAddedStep eid T s qid) x).entities) ↔
            (T ∈ (getQueryById s x).NotComponents ∧
              eid ∈ (getQueryById s x).entities) := by
          rw [hfieldsx.2.1, hent]
        have hBiff : (T ∈ (getQueryById (onAddedStep eid T s qid) x).Components ∧
              (getQueryById (onAddedStep eid T s qid) x).matchesEntity
                (getEntity (onAddedStep eid T s qid) eid) ∧
              eid ∉ (getQueryById (onAddedStep eid T s qid) x).entities) ↔
            (T ∈ (getQueryById s x).Components ∧
              (getQueryById s x).matchesEntity (getEntity s eid) ∧
              eid ∉ (getQueryById s x).entities) := by
          rw [hfieldsx.1, hent]
          exact and_congr_right fun _ => and_congr_left fun _ => hmatch
        obtain ⟨io1, io2, io3⟩ := iout x hx2
        refine ⟨fun hA => io1 (hAiff.mpr hA),
          fun hA hB => io2 (fun h => hA (hAiff.mp h)) (hBiff.mpr hB),
          fun hA hB => (io3 (fun h => hA (hAiff.mp h))
            (fun h => hB (hBiff.mp h))).trans (by rw [hent])⟩
    · intro x hx
      have hx1 : x ≠ qid := fun h => hx (h ▸ List.mem_cons_self _ _)
      have hx2 : x ∉ rest := fun h => hx (List.mem_cons_of_mem _ h)
      exact (ioth x hx2).trans (soth x hx1)

theorem onRemoved_fold (eid : Nat) (T : CType) :
    ∀ (qids : List Nat) (s : EMState),
      qids.Nodup →
      (∀ i ∈ qids, i ∈ s.queries.map (fun q => q.id)) →
      LoopInv s eid →
      LoopInv (qids.foldl (onRemovedStep eid T) s) eid ∧
      FrameOn eid s (qids.foldl (onRemovedStep eid T) s) ∧
      ((getEntity (qids.foldl (onRemovedStep eid T) s) eid).ComponentTypes =
        (getEntity s eid).ComponentTypes) ∧
      ((getEntity (qids.foldl (onRemovedStep eid T) s) eid).ComponentTypesToRemove =
        (getEntity s eid).ComponentTypesToRemove) ∧
      (∀ qid ∈ qids,
        ((T ∈ (getQueryById s qid).NotComponents ∧ eid ∉ (getQueryById s qid).entities ∧
            (getQueryById s qid).matchesEntity (getEntity s eid)) →
          eid ∈ (getQueryById (qids.foldl (onRemovedStep eid T) s) qid).entities) ∧
        (¬(T ∈ (getQueryById s qid).NotComponents ∧ eid ∉ (getQueryById s qid).entities ∧
            (getQueryById s qid).matchesEntity (getEntity s eid)) →
          (T ∈ (getQueryById s qid).Components ∧ eid ∈ (getQueryById s qid).entities ∧
            ¬ (getQueryById s qid).matchesEntity (getEntity s eid)) →
          eid ∉ (getQueryById (qids.foldl (onRemovedStep eid T) s) qid).entities) ∧
        (¬(T ∈ (getQueryById s qid).NotComponents ∧ eid ∉ (getQueryById s qid).entities ∧
            (getQueryById s qid).matchesEntity (getEntity s eid)) →
          ¬(T ∈ (getQueryById s qid).Components ∧ eid ∈ (getQueryById s qid).entities ∧
            ¬ (getQueryById s qid).matchesEntity (getEntity s eid)) →
          (eid ∈ (getQueryById (qids.foldl (onRemovedStep eid T) s) qid).entities ↔
           eid ∈ (getQueryById s qid).entities))) ∧
      (∀ x, x ∉ qids → (getQueryById (qids.foldl (onRemovedStep eid T) s) x).entities =
        (getQueryById s x).entities) := by
  intro qids
  induction qids with
  | nil =>
    intro s _ _ hinv
    exact ⟨hinv, FrameOn.refl s, rfl, rfl, fun _ h => absurd h (List.not_mem_nil _),
      fun _ _ => rfl⟩
  | cons qid rest ih =>
    intro s hnd hsub hinv
    obtain ⟨hqnotin, hndrest⟩ := List.nodup_cons.mp hnd
    obtain ⟨sl, sf, sct, sctr, so1, so2, so3, soth⟩ :=
      onRemovedStep_spec s eid T qid hinv (hsub qid (List.mem_cons_self _ _))
    have hsub1 : ∀ i ∈ rest, i ∈ (onRemovedStep eid T s qid).queries.map (fun q => q.id) := by
      intro i hi
      rw [sf.2.2.1]
      exact hsub i (List.mem_cons_of_mem _ hi)
    obtain ⟨il, ifr, ict, ictr, iout, ioth⟩ := ih (onRemovedStep eid T s qid) hndrest hsub1 sl
    rw [List.foldl_cons]
    refine ⟨il, FrameOn.trans sf ifr, ict.trans sct, ictr.trans sctr, ?_, ?_⟩
    · intro x hx
      rcases List.mem_cons.mp hx with hx1 | hx2
      · subst hx1
        have hun : (getQueryById (rest.foldl (onRemovedStep eid T)
              (onRemovedStep eid T s x)) x).entities =
            (getQueryById (onRemovedStep eid T s x) x).entities := ioth x hqnotin
        refine ⟨?_, ?_, ?_⟩
        · intro hA
          rw [hun]
          exact so1 hA
        · intro hA hB
          rw [hun]
          exact so2 hA hB
        · intro hA hB
          rw [hun]
          exact so3 hA hB
      · have hxne : x ≠ qid := fun h => hqnotin (h ▸ hx2)
        have hent : (getQueryById (onRemovedStep eid T s qid) x).entities =
            (getQueryById s x).entities := soth x hxne
        have hfieldsx := sf.2.2.2.2.1 x
        have hmatch : (getQueryById (onRemovedStep eid T s qid) x).matchesEntity
              (getEntity (onRemovedStep eid T s qid) eid) ↔
            (getQueryById s x).matchesEntity (getEntity s eid) :=
          matchesEntity_congr2 _ _ _ _ hfieldsx.1 hfieldsx.2.1 sct
        have hAiff : (T ∈ (getQueryById (onRemovedStep eid T s qid) x).NotComponents ∧
              eid ∉ (getQueryById (onRemovedStep eid T s qid) x).entities ∧
              (getQueryById (onRemovedStep eid T s qid) x).matchesEntity
                (getEntity (onRemovedStep eid T s qid) eid)) ↔
            (T ∈ (getQueryById s x).NotComponents ∧
              eid ∉ (getQueryById s x).entities ∧
              (getQueryById s x).matchesEntity (getEntity s eid)) := by
          rw [hfieldsx.2.1, hent]
          exact and_congr_right fun _ => and_congr_right fun _ => hmatch
        have hBiff : (T ∈ (getQueryById (onRemovedStep eid T s qid) x).Components ∧
              eid ∈ (getQueryById (onRemovedStep eid T s qid) x).entities ∧
              ¬ (getQueryById (onRemovedStep eid T s qid) x).matchesEntity
                (getEntity (onRemovedStep eid T s qid) eid)) ↔
            (T ∈ (getQueryById s x).Components ∧
              eid ∈ (getQueryById s x).entities ∧
              ¬ (getQueryById s x).matchesEntity (getEntity s eid)) := by
          rw [hfieldsx.1, hent]
          exact and_congr_right fun _ => and_congr_right fun _ => not_congr hmatch
        obtain ⟨io1, io2, io3⟩ := iout x hx2
        refine ⟨fun hA => io1 (hAiff.mpr hA),
          fun hA hB => io2 (fun h => hA (hAiff.mp h)) (hBiff.mpr hB),
          fun hA hB => (io3 (fun h => hA (hAiff.mp h))
            (fun h => hB (hBiff.mp h))).trans (by rw [hent])⟩
    · intro x hx
      have hx1 : x ≠ qid := fun h => hx (h ▸ List.mem_cons_self _ _)
      have hx2 : x ∉ rest := fun h => hx (List.mem_cons_of_mem _ h)
      exact (ioth x hx2).trans (soth x hx1)

theorem onEntityRemoved_fold (eid : Nat) :
    ∀ (qids : List Nat) (s : EMState),
      qids.Nodup →
      (∀ i ∈ qids, i ∈ s.queries.map (fun q => q.id)) →
      LoopInv s eid →
      LoopInv (qids.foldl (onEntityRemovedStep eid) s) eid ∧
      FrameOn eid s (qids.foldl (onEntityRemovedStep eid) s) ∧
      ((getEntity (qids.foldl (onEntityRemovedStep eid) s) eid).ComponentTypes =
        (getEntity s eid).ComponentTypes) ∧
      ((getEntity (qids.foldl (onEntityRemovedStep eid) s) eid).ComponentTypesToRemove =
        (getEntity s eid).ComponentTypesToRemove) ∧
      (∀ qid ∈ qids,
        eid ∉ (getQueryById (qids.foldl (onEntityRemovedStep eid) s) qid).entities) ∧
      (∀ x, x ∉ qids → (getQueryById (qids.foldl (onEntityRemovedStep eid) s) x).entities =
        (getQueryById s x).entities) := by
  intro qids
  induction qids with
  | nil =>
    intro s _ _ hinv
    exact ⟨hinv, FrameOn.refl s, rfl, rfl, fun _ h => absurd h (List.not_mem_nil _),
      fun _ _ => rfl⟩
  | cons qid rest ih =>
    intro s hnd hsub hinv
    obtain ⟨hqnotin, hndrest⟩ := List.nodup_cons.mp hnd
    obtain ⟨sl, sf, sct, sctr, sout, soth⟩ :=
      onEntityRemovedStep_spec s eid qid hinv (hsub qid (List.mem_cons_self _ _))
    have hsub1 : ∀ i ∈ rest, i ∈ (onEntityRemovedStep eid s qid).queries.map (fun q => q.id) := by
      intro i hi
      rw [sf.2.2.1]
      exact hsub i (List.mem_cons_of_mem _ hi)
    obtain ⟨il, ifr, ict, ictr, iout, ioth⟩ := ih (onEntityRemovedStep eid s qid) hndrest hsub1 sl
    rw [List.foldl_cons]
    refine ⟨il, FrameOn.trans sf ifr, ict.trans sct, ictr.trans sctr, ?_, ?_⟩
    · intro x hx
      rcases List.mem_cons.mp hx with hx1 | hx2
      · subst hx1
        rw [ioth x hqnotin]
        exact sout
      · exact iout x hx2
    · intro x hx
      have hx1 : x ≠ qid := fun h => hx (h ▸ List.mem_cons_self _ _)
      have hx2 : x ∉ rest := fun h => hx (List.mem_cons_of_mem _ h)
      exact (ioth x hx2).trans (soth x hx1)

theorem getQueryById_mem (s : EMState) (qid : Nat)
    (hq : qid ∈ s.queries.map (fun q => q.id)) : getQueryById s qid ∈ s.queries := by
  rcases getQueryById_mem_or_default s qid with h | h
  · exact h
  · rcases List.mem_map.mp hq with ⟨q0, hq0, hid0⟩
    unfold getQueryById at h ⊢
    cases hf : s.queries.find? (fun q => q.id = qid) with
    | none =>
      have := List.find?_eq_none.mp hf q0 hq0
      exact absurd hid0 (by simpa using this)
    | some q => simpa [hf] using List.mem_of_find?_eq_some hf

theorem getQueryById_not_mem (s : EMState) (qid : Nat)
    (hq : qid ∉ s.queries.map (fun q => q.id)) :
    getQueryById s qid = ⟨qid, [], [], [], false⟩ := by
  unfold getQueryById
  have hf : s.queries.find? (fun q => q.id = qid) = none := by
    rw [List.find?_eq_none]
    intro q hmem
    simp only [decide_eq_true_eq]
    intro hid
    exact hq (hid ▸ List.mem_map.mpr ⟨q, hmem, rfl⟩)
  rw [hf]
  rfl

theorem LoopInv_of_WF (s : EMState) (eid : Nat) (hwf : WF s) (halive : eid ∈ s.alive) :
    LoopInv s eid := by
  obtain ⟨w1, w2, _, w4, _, w6, w7, w8, w9, _⟩ := hwf
  have hein : eid ∈ s.store.map (fun e => e.id) := w9 eid halive
  have he : getEntity s eid ∈ s.store := getEntity_mem s eid hein
  have heid : (getEntity s eid).id = eid := getEntity_id s eid
  refine ⟨w1, w2, ?_, ?_, ?_, hein⟩
  · intro qid
    rcases getQueryById_mem_or_default s qid with h | h
    · exact w4 _ h
    · rw [h]
      exact List.nodup_nil
  · intro x
    rcases getEntity_mem_or_default s x with h | h
    · exact w6 _ h
    · rw [h]
      exact List.nodup_nil
  · intro qid
    by_cases hq : qid ∈ s.queries.map (fun q => q.id)
    · have hqm := getQueryById_mem s qid hq
      have := w7 _ he (by rw [heid]; exact halive) _ hqm
      rw [getQueryById_id s qid, heid] at this
      exact this
    · rw [getQueryById_not_mem s qid hq]
      refine iff_of_false ?_ (List.not_mem_nil eid)
      intro hc
      exact hq (w8 _ he (by rw [heid]; exact halive) qid hc)

theorem not_matches_of_empty (q : Query) (e : Entity) (hP : q.Components ≠ [])
    (hct : e.ComponentTypes = []) : ¬ q.matchesEntity e := by
  rintro ⟨hall, _⟩
  rcases List.exists_mem_of_ne_nil _ hP with ⟨P, hPmem⟩
  have := hall P hPmem
  unfold Entity.hasComponent at this
  rw [hct] at this
  exact List.not_mem_nil P this

/-- Case analysis showing the `onEntityComponentAdded` loop restores the
membership invariant for the freshly extended entity. -/
theorem added_consistent (q : Query) (e e' : Entity) (T : CType) (m m' : Prop)
    (hTnew : T ∉ e.ComponentTypes)
    (hct : e'.ComponentTypes = e.ComponentTypes ++ [T])
    (hcons : m ↔ q.matchesEntity e)
    (h1 : (T ∈ q.NotComponents ∧ m) → ¬ m')
    (h2 : ¬(T ∈ q.NotComponents ∧ m) →
      (T ∈ q.Components ∧ q.matchesEntity e' ∧ ¬m) → m')
    (h3 : ¬(T ∈ q.NotComponents ∧ m) →
      ¬(T ∈ q.Components ∧ q.matchesEntity e' ∧ ¬m) → (m' ↔ m)) :
    m' ↔ q.matchesEntity e' := by
  have hmem' : ∀ x, x ∈ e'.ComponentTypes ↔ (x ∈ e.ComponentTypes ∨ x = T) := by
    intro x
    rw [hct]
    simp
  by_cases hN : T ∈ q.NotComponents
  · have hnm' : ¬ q.matchesEntity e' := by
      rintro ⟨_, hnone⟩
      exact hnone ⟨T, hN, (hmem' T).mpr (Or.inr rfl)⟩
    by_cases hm : m
    · exact iff_of_false (h1 ⟨hN, hm⟩) hnm'
    · have := h3 (fun h => hm h.2) (fun h => hnm' h.2.1)
      exact iff_of_false (fun h => hm (this.mp h)) hnm'
  · have hA : ¬(T ∈ q.NotComponents ∧ m) := fun h => hN h.1
    by_cases hC : T ∈ q.Components
    · have hnm : ¬ m := by
        intro hm
        have := (hcons.mp hm).1 T hC
        exact hTnew this
      by_cases hm' : q.matchesEntity e'
      · exact iff_of_true (h2 hA ⟨hC, hm', hnm⟩) hm'
      · have := h3 hA (fun h => hm' h.2.1)
        exact iff_of_false (fun h => hnm (this.mp h)) hm'
    · have hmatchiff : q.matchesEntity e' ↔ q.matchesEntity e := by
        unfold Query.matchesEntity Entity.hasAllComponents Entity.hasAnyComponents
          Entity.hasComponent
        constructor
        · rintro ⟨hall, hnone⟩
          refine ⟨fun P hP => ?_, fun hex => ?_⟩
          · rcases (hmem' P).mp (hall P hP) with h | h
            · exact h
            · exact absurd (h ▸ hP) hC
          · rcases hex with ⟨N, hNmem, hNin⟩
            exact hnone ⟨N, hNmem, (hmem' N).mpr (Or.inl hNin)⟩
        · rintro ⟨hall, hnone⟩
          refine ⟨fun P hP => (hmem' P).mpr (Or.inl (hall P hP)), fun hex => ?_⟩
          rcases hex with ⟨N, hNmem, hNin⟩
          rcases (hmem' N).mp hNin with h | h
          · exact hnone ⟨N, hNmem, h⟩
          · exact hN (h ▸ hNmem)
      have := h3 hA (fun h => absurd h.1 hC)
      rw [this, hcons, hmatchiff]

/-- Case analysis showing the `onEntityComponentRemoved` loop restores the
membership invariant for the entity that just lost `T`. -/
theorem removed_consistent (q : Query) (e e' : Entity) (T : CType) (m m' : Prop)
    (hT : T ∈ e.ComponentTypes) (hnd : e.ComponentTypes.Nodup)
    (hct : e'.ComponentTypes = e.ComponentTypes.erase T)
    (hcons : m ↔ q.matchesEntity e)
    (h1 : (T ∈ q.NotComponents ∧ ¬m ∧ q.matchesEntity e') → m')
    (h2 : ¬(T ∈ q.NotComponents ∧ ¬m ∧ q.matchesEntity e') →
      (T ∈ q.Components ∧ m ∧ ¬ q.matchesEntity e') → ¬m')
    (h3 : ¬(T ∈ q.NotComponents ∧ ¬m ∧ q.matchesEntity e') →
      ¬(T ∈ q.Components ∧ m ∧ ¬ q.matchesEntity e') → (m' ↔ m)) :
    m' ↔ q.matchesEntity e' := by
  have hmem' : ∀ x, x ∈ e'.ComponentTypes ↔ (x ≠ T ∧ x ∈ e.ComponentTypes) := by
    intro x
    rw [hct]
    exact hnd.mem_erase_iff
  by_cases hN : T ∈ q.NotComponents
  · have hnm : ¬ m := by
      intro hm
      exact (hcons.mp hm).2 ⟨T, hN, hT⟩
    by_cases hm' : q.matchesEntity e'
    · exact iff_of_true (h1 ⟨hN, hnm, hm'⟩) hm'
    · have := h3 (fun h => hm' h.2.2) (fun h => hnm h.2.1)
      exact iff_of_false (fun h => hnm (this.mp h)) hm'
  · by_cases hC : T ∈ q.Components
    · have hnm' : ¬ q.matchesEntity e' := by
        rintro ⟨hall, _⟩
        have := hall T hC
        exact ((hmem' T).mp this).1 rfl
      have hA : ¬(T ∈ q.NotComponents ∧ ¬m ∧ q.matchesEntity e') := fun h => hN h.1
      by_cases hm : m
      · exact iff_of_false (h2 hA ⟨hC, hm, hnm'⟩) hnm'
      · have := h3 hA (fun h => hm h.2.1)
        exact iff_of_false (fun h => hm (this.mp h)) hnm'
    · have hmatchiff : q.matchesEntity e' ↔ q.matchesEntity e := by
        unfold Query.matchesEntity Entity.hasAllComponents Entity.hasAnyComponents
          Entity.hasComponent
        constructor
        · rintro ⟨hall, hnone⟩
          refine ⟨fun P hP => ?_, fun hex => ?_⟩
          · exact ((hmem' P).mp (hall P hP)).2
          · rcases hex with ⟨N, hNmem, hNin⟩
            by_cases hNT : N = T
            · exact hN (hNT ▸ hNmem)
            · exact hnone ⟨N, hNmem, (hmem' N).mpr ⟨hNT, hNin⟩⟩
        · rintro ⟨hall, hnone⟩
          refine ⟨fun P hP => ?_, fun hex => ?_⟩
          · refine (hmem' P).mpr ⟨?_, hall P hP⟩
            intro hPT
            exact hC (hPT ▸ hP)
          · rcases hex with ⟨N, hNmem, hNin⟩
            exact hnone ⟨N, hNmem, ((hmem' N).mp hNin).2⟩
      have := h3 (fun h => hN h.1) (fun h => hC h.1)
      rw [this, hcons, hmatchiff]

/-- The one-sided invariant (membership implies match) survives a component
removal; used while `removeEntity` strips an entity of all its components. -/
theorem removed_memimp (q : Query) (e e' : Entity) (T : CType) (m m' : Prop)
    (hct : e'.ComponentTypes = e.ComponentTypes.erase T)
    (hpre : m → q.matchesEntity e)
    (h2 : ¬(T ∈ q.NotComponents ∧ ¬m ∧ q.matchesEntity e') →
      (T ∈ q.Components ∧ m ∧ ¬ q.matchesEntity e') → ¬m')
    (h3 : ¬(T ∈ q.NotComponents ∧ ¬m ∧ q.matchesEntity e') →
      ¬(T ∈ q.Components ∧ m ∧ ¬ q.matchesEntity e') → (m' ↔ m)) :
    m' → q.matchesEntity e' := by
  intro hm'
  by_cases hA : T ∈ q.NotComponents ∧ ¬m ∧ q.matchesEntity e'
  · exact hA.2.2
  · by_cases hB : T ∈ q.Components ∧ m ∧ ¬ q.matchesEntity e'
    · exact absurd hm' (h2 hA hB)
    · have hm : m := (h3 hA hB).mp hm'
      have hmatch := hpre hm
      by_cases hm'' : q.matchesEntity e'
      · exact hm''
      · have hTC : T ∉ q.Components := fun hC => hB ⟨hC, hm, hm''⟩
        exfalso
        apply hm''
        obtain ⟨hall, hnone⟩ := hmatch
        constructor
        · intro P hP
          unfold Entity.hasComponent at *
          rw [hct]
          refine List.mem_erase_of_ne ?_ |>.mpr (hall P hP)
          intro hPT
          exact hTC (hPT ▸ hP)
        · intro hex
          rcases hex with ⟨N, hNmem, hNin⟩
          unfold Entity.hasComponent at hNin
          rw [hct] at hNin
          exact hnone ⟨N, hNmem, List.mem_of_mem_erase hNin⟩

/-- `entityAddComponent` preserves the full well-formedness of the query
index; in particular every live query's vector again contains exactly the
matching live entities. -/
theorem WF_entityAddComponent (s : EMState) (eid : Nat) (T : CType)
    (hwf : WF s) (halive : eid ∈ s.alive) : WF (entityAddComponent s eid T) := by
  by_cases hT : T ∈ (getEntity s eid).ComponentTypes
  · have hres : entityAddComponent s eid T = s := by
      unfold entityAddComponent
      rw [if_pos hT]
    rw [hres]
    exact hwf
  · have hloop0 : LoopInv s eid := LoopInv_of_WF s eid hwf halive
    obtain ⟨w1, w2, w3, w4, w5, w6, w7, w8, w9, w10⟩ := hwf
    have hein : eid ∈ s.store.map (fun e => e.id) := hloop0.2.2.2.2.2
    have hgs1self : getEntity (updateEntity s eid
        (fun e => { e with ComponentTypes := e.ComponentTypes ++ [T] })) eid =
        { getEntity s eid with
          ComponentTypes := (getEntity s eid).ComponentTypes ++ [T] } :=
      getEntity_updateEntity_self s eid
        (fun e => { e with ComponentTypes := e.ComponentTypes ++ [T] })
        (fun _ => rfl) hein
    have hgs1other : ∀ x, x ≠ eid → getEntity (updateEntity s eid
        (fun e => { e with ComponentTypes := e.ComponentTypes ++ [T] })) x =
        getEntity s x := fun x hx =>
      getEntity_updateEntity_other s eid x
        (fun e => { e with ComponentTypes := e.ComponentTypes ++ [T] })
        (fun _ => rfl) hx
    have hsid1 : (updateEntity s eid
        (fun e => { e with ComponentTypes := e.ComponentTypes ++ [T] })).store.map
          (fun e => e.id) = s.store.map (fun e => e.id) :=
      updateEntity_store_ids s eid _ (fun _ => rfl)
    have hloop1 : LoopInv (updateEntity s eid
        (fun e => { e with ComponentTypes := e.ComponentTypes ++ [T] })) eid := by
      refine ⟨by rw [hsid1]; exact w1, hloop0.2.1, hloop0.2.2.1, ?_, ?_,
        by rw [hsid1]; exact hein⟩
      · intro x
        by_cases hx : x = eid
        · subst hx
          rw [hgs1self]
          exact hloop0.2.2.2.1 x
        · rw [hgs1other x hx]
          exact hloop0.2.2.2.1 x
      · intro qid
        rw [hgs1self]
        exact hloop0.2.2.2.2.1 qid
    have hres : entityAddComponent s eid T =
        (s.queries.map (fun q => q.id)).foldl (onAddedStep eid T)
          (updateEntity s eid
            (fun e => { e with ComponentTypes := e.ComponentTypes ++ [T] })) := by
      unfold entityAddComponent
      rw [if_neg hT]
      rfl
    obtain ⟨fl, ffr, fct, fctr, fout, foth⟩ :=
      onAdded_fold eid T (s.queries.map (fun q => q.id)) _ w2 (fun i hi => hi) hloop1
    rw [hres]
    obtain ⟨fal, fsid, fqid, fent, ffields, fmem⟩ := ffr
    set sF := (s.queries.map (fun q => q.id)).foldl (onAddedStep eid T)
      (updateEntity s eid
        (fun e => { e with ComponentTypes := e.ComponentTypes ++ [T] })) with hsF
    have hsidF : sF.store.map (fun e => e.id) = s.store.map (fun e => e.id) :=
      fsid.trans hsid1
    have hqidF : sF.queries.map (fun q => q.id) = s.queries.map (fun q => q.id) := fqid
    have haliveF : sF.alive = s.alive := fal
    have hEeq : ∀ x, x ≠ eid → getEntity sF x = getEntity s x := fun x hx =>
      (fent x hx).trans (hgs1other x hx)
    have hctF : (getEntity sF eid).ComponentTypes =
        (getEntity s eid).ComponentTypes ++ [T] := by
      rw [fct, hgs1self]
    have hqF : ∀ q' ∈ sF.queries, getQueryById sF q'.id = q' := fun q' hq' =>
      getQueryById_of_mem sF q' hq' (by rw [hqidF]; exact w2)
    have hqFin : ∀ q' ∈ sF.queries, q'.id ∈ s.queries.map (fun q => q.id) := by
      intro q' hq'
      rw [← hqidF]
      exact List.mem_map_of_mem _ hq'
    have hEF : ∀ e' ∈ sF.store, getEntity sF e'.id = e' := fun e' he' =>
      getEntity_of_mem sF e' he' (by rw [hsidF]; exact w1)
    have hEFin : ∀ e' ∈ sF.store, e'.id ∈ s.store.map (fun e => e.id) := by
      intro e' he'
      rw [← hsidF]
      exact List.mem_map_of_mem _ he'
    have hfieldsS : ∀ qid : Nat,
        ((getQueryById sF qid).Components = (getQueryById s qid).Components ∧
         (getQueryById sF qid).NotComponents = (getQueryById s qid).NotComponents) :=
      fun qid => ⟨(ffields qid).1, (ffields qid).2.1⟩
    refine ⟨by rw [hsidF]; exact w1, by rw [hqidF]; exact w2, ?_, ?_, ?_, ?_, ?_, ?_, ?_, ?_⟩
    · -- positive sets non-empty
      intro q' hq'
      have h1 : q'.Components = (getQueryById s q'.id).Components := by
        conv_lhs => rw [← hqF q' hq']
        exact (hfieldsS q'.id).1
      rw [h1]
      exact w3 _ (getQueryById_mem s q'.id (hqFin q' hq'))
    · -- query vectors duplicate-free
      intro q' hq'
      have h1 := fl.2.2.1 q'.id
      rw [hqF q' hq'] at h1
      exact h1
    · -- attached-type lists duplicate-free
      intro e' he'
      by_cases hx : e'.id = eid
      · have h0 : getEntity sF eid = e' := by
          rw [← hx]
          exact hEF e' he'
        have h1 : e'.ComponentTypes = (getEntity s eid).ComponentTypes ++ [T] := by
          rw [← h0, hctF]
        rw [h1]
        refine List.Nodup.append (w5 _ (getEntity_mem s eid hein))
          (List.nodup_singleton T) ?_
        intro a ha hb
        rw [List.mem_singleton] at hb
        exact hT (hb ▸ ha)
      · have h1 : e' = getEntity s e'.id := by
          conv_lhs => rw [← hEF e' he']
          exact hEeq e'.id hx
        rw [h1]
        exact w5 _ (getEntity_mem s e'.id (hEFin e' he'))
    · -- back-edge lists duplicate-free
      intro e' he'
      have h1 := fl.2.2.2.1 e'.id
      rw [hEF e' he'] at h1
      exact h1
    · -- back-edge coherence for live entities
      intro e' he' halive'
      intro q' hq'
      by_cases hx : e'.id = eid
      · have hco := fl.2.2.2.2.1 q'.id
        have h0 : getEntity sF eid = e' := by
          rw [← hx]
          exact hEF e' he'
        rw [h0, hqF q' hq'] at hco
        rw [hx]
        exact hco
      · have he'' : e' = getEntity s e'.id := by
          conv_lhs => rw [← hEF e' he']
          exact hEeq e'.id hx
        have he'mem : e' ∈ s.store := by
          rw [he'']
          exact getEntity_mem s e'.id (hEFin e' he')
        have halive'' : e'.id ∈ s.alive := by
          rw [← haliveF]
          exact halive'
        have hw := w7 e' he'mem halive'' (getQueryById s q'.id)
          (getQueryById_mem s q'.id (hqFin q' hq'))
        rw [getQueryById_id s q'.id] at hw
        have hm : e'.id ∈ q'.entities ↔ e'.id ∈ (getQueryById s q'.id).entities := by
          conv_lhs => rw [← hqF q' hq']
          exact fmem q'.id e'.id hx
        exact hw.trans hm.symm
    · -- back edges point at live queries
      intro e' he' _ i hi
      by_cases hx : e'.id = eid
      · by_contra hni
        have hdef := getQueryById_not_mem sF i hni
        have hi' : i ∈ (getEntity sF eid).queries := by
          rw [← hx, hEF e' he']
          exact hi
        have := (fl.2.2.2.2.1 i).mp hi'
        rw [hdef] at this
        exact List.not_mem_nil eid this
      · have he'' : e' = getEntity s e'.id := by
          conv_lhs => rw [← hEF e' he']
          exact hEeq e'.id hx
        have he'mem : e' ∈ s.store := by
          rw [he'']
          exact getEntity_mem s e'.id (hEFin e' he')
        have halive'' : e'.id ∈ s.alive := by
          rw [← haliveF]
          assumption
        rw [hqidF]
        exact w8 e' he'mem halive'' i hi
    · -- the live vector only holds heap ids
      intro i hi
      rw [hsidF]
      rw [haliveF] at hi
      exact w9 i hi
    · -- C1's membership invariant
      intro q' hq' e' he' halive'
      have hq0mem : getQueryById s q'.id ∈ s.queries :=
        getQueryById_mem s q'.id (hqFin q' hq')
      by_cases hx : e'.id = eid
      · obtain ⟨o1, o2, o3⟩ := fout q'.id (hqFin q' hq')
        have hcons0 : (eid ∈ (getQueryById s q'.id).entities) ↔
            (getQueryById s q'.id).matchesEntity (getEntity s eid) := by
          have := w10 _ hq0mem (getEntity s eid) (getEntity_mem s eid hein)
            (by rw [getEntity_id s eid]; exact halive)
          rw [getEntity_id s eid] at this
          exact this
        have hiff := added_consistent (getQueryById s q'.id) (getEntity s eid)
          (getEntity (updateEntity s eid
            (fun e => { e with ComponentTypes := e.ComponentTypes ++ [T] })) eid) T
          (eid ∈ (getQueryById s q'.id).entities)
          (eid ∈ (getQueryById sF q'.id).entities)
          hT (by rw [hgs1self]) hcons0 o1 o2 o3
        have h0 : getEntity sF eid = e' := by
          rw [← hx]
          exact hEF e' he'
        have hcte : e'.ComponentTypes = (getEntity (updateEntity s eid
            (fun e => { e with ComponentTypes := e.ComponentTypes ++ [T] }))
              eid).ComponentTypes := by
          rw [← h0]
          exact fct
        have hmc : q'.matchesEntity e' ↔
            (getQueryById s q'.id).matchesEntity (getEntity (updateEntity s eid
              (fun e => { e with ComponentTypes := e.ComponentTypes ++ [T] })) eid) := by
          refine matchesEntity_congr2 _ _ _ _ ?_ ?_ hcte
          · conv_lhs => rw [← hqF q' hq']
            exact (hfieldsS q'.id).1
          · conv_lhs => rw [← hqF q' hq']
            exact (hfieldsS q'.id).2
        have hgoal1 : e'.id ∈ q'.entities ↔
            eid ∈ (getQueryById sF q'.id).entities := by
          rw [hx, hqF q' hq']
        exact hgoal1.trans (hiff.trans hmc.symm)
      · have he'' : e' = getEntity s e'.id := by
          conv_lhs => rw [← hEF e' he']
          exact hEeq e'.id hx
        have he'mem : e' ∈ s.store := by
          rw [he'']
          exact getEntity_mem s e'.id (hEFin e' he')
        have halive'' : e'.id ∈ s.alive := by
          rw [← haliveF]
          exact halive'
        have hw := w10 _ hq0mem e' he'mem halive''
        have hmemiff : e'.id ∈ q'.entities ↔
            e'.id ∈ (getQueryById s q'.id).entities := by
          conv_lhs => rw [← hqF q' hq']
          exact fmem q'.id e'.id hx
        have hmc : q'.matchesEntity e' ↔
            (getQueryById s q'.id).matchesEntity e' := by
          refine matchesEntity_congr2 _ _ _ _ ?_ ?_ rfl
          · conv_lhs => rw [← hqF q' hq']
            exact (hfieldsS q'.id).1
          · conv_lhs => rw [← hqF q' hq']
            exact (hfieldsS q'.id).2
        exact hmemiff.trans (hw.trans hmc.symm)

/-- Rebuild full well-formedness of the query index after a mutation centred
on entity `eid`, from the loop invariant, the frame facts, and the
re-established membership invariant for `eid` itself. -/
theorem WF_reassemble (s s' : EMState) (eid : Nat) (hwf : WF s)
    (hloopF : LoopInv s' eid)
    (hsid : s'.store.map (fun e => e.id) = s.store.map (fun e => e.id))
    (hqid : s'.queries.map (fun q => q.id) = s.queries.map (fun q => q.id))
    (halsub : ∀ i ∈ s'.alive, i ∈ s.alive)
    (hEeq : ∀ x, x ≠ eid → getEntity s' x = getEntity s x)
    (hfields : ∀ qid : Nat,
      (getQueryById s' qid).Components = (getQueryById s qid).Components ∧
      (getQueryById s' qid).NotComponents = (getQueryById s qid).NotComponents)
    (hmem : ∀ (qid x : Nat), x ≠ eid →
      (x ∈ (getQueryById s' qid).entities ↔ x ∈ (getQueryById s qid).entities))
    (hctnd : (getEntity s' eid).ComponentTypes.Nodup)
    (hconsEid : eid ∈ s'.alive → ∀ q' ∈ s'.queries,
      (eid ∈ q'.entities ↔ q'.matchesEntity (getEntity s' eid))) :
    WF s' := by
  obtain ⟨w1, w2, w3, _, w5, _, w7, w8, w9, w10⟩ := hwf
  have hqF : ∀ q' ∈ s'.queries, getQueryById s' q'.id = q' := fun q' hq' =>
    getQueryById_of_mem s' q' hq' (by rw [hqid]; exact w2)
  have hqFin : ∀ q' ∈ s'.queries, q'.id ∈ s.queries.map (fun q => q.id) := by
    intro q' hq'
    rw [← hqid]
    exact List.mem_map_of_mem _ hq'
  have hEF : ∀ e' ∈ s'.store, getEntity s' e'.id = e' := fun e' he' =>
    getEntity_of_mem s' e' he' (by rw [hsid]; exact w1)
  have hEFin : ∀ e' ∈ s'.store, e'.id ∈ s.store.map (fun e => e.id) := by
    intro e' he'
    rw [← hsid]
    exact List.mem_map_of_mem _ he'
  refine ⟨by rw [hsid]; exact w1, by rw [hqid]; exact w2, ?_, ?_, ?_, ?_, ?_, ?_, ?_, ?_⟩
  · intro q' hq'
    have h1 : q'.Components = (getQueryById s q'.id).Components := by
      conv_lhs => rw [← hqF q' hq']
      exact (hfields q'.id).1
    rw [h1]
    exact w3 _ (getQueryById_mem s q'.id (hqFin q' hq'))
  · intro q' hq'
    have h1 := hloopF.2.2.1 q'.id
    rw [hqF q' hq'] at h1
    exact h1
  · intro e' he'
    by_cases hx : e'.id = eid
    · have h0 : getEntity s' eid = e' := by
        rw [← hx]
        exact hEF e' he'
      rw [← h0]
      exact hctnd
    · have h1 : e' = getEntity s e'.id := by
        conv_lhs => rw [← hEF e' he']
        exact hEeq e'.id hx
      rw [h1]
      exact w5 _ (getEntity_mem s e'.id (hEFin e' he'))
  · intro e' he'
    have h1 := hloopF.2.2.2.1 e'.id
    rw [hEF e' he'] at h1
    exact h1
  · intro e' he' halive' q' hq'
    by_cases hx : e'.id = eid
    · have hco := hloopF.2.2.2.2.1 q'.id
      have h0 : getEntity s' eid = e' := by
        rw [← hx]
        exact hEF e' he'
      rw [h0, hqF q' hq'] at hco
      rw [hx]
      exact hco
    · have he'' : e' = getEntity s e'.id := by
        conv_lhs => rw [← hEF e' he']
        exact hEeq e'.id hx
      have he'mem : e' ∈ s.store := by
        rw [he'']
        exact getEntity_mem s e'.id (hEFin e' he')
      have hw := w7 e' he'mem (halsub _ halive') (getQueryById s q'.id)
        (getQueryById_mem s q'.id (hqFin q' hq'))
      rw [getQueryById_id s q'.id] at hw
      have hm : e'.id ∈ q'.entities ↔ e'.id ∈ (getQueryById s q'.id).entities := by
        conv_lhs => rw [← hqF q' hq']
        exact hmem q'.id e'.id hx
      exact hw.trans hm.symm
  · intro e' he' _ i hi
    by_cases hx : e'.id = eid
    · by_contra hni
      have hdef := getQueryById_not_mem s' i hni
      have hi' : i ∈ (getEntity s' eid).queries := by
        rw [← hx, hEF e' he']
        exact hi
      have := (hloopF.2.2.2.2.1 i).mp hi'
      rw [hdef] at this
      exact List.not_mem_nil eid this
    · have he'' : e' = getEntity s e'.id := by
        conv_lhs => rw [← hEF e' he']
        exact hEeq e'.id hx
      have he'mem : e' ∈ s.store := by
        rw [he'']
        exact getEntity_mem s e'.id (hEFin e' he')
      rw [hqid]
      rename_i halive'
      exact w8 e' he'mem (halsub _ halive') i hi
  · intro i hi
    rw [hsid]
    exact w9 i (halsub i hi)
  · intro q' hq' e' he' halive'
    by_cases hx : e'.id = eid
    · have h0 : getEntity s' eid = e' := by
        rw [← hx]
        exact hEF e' he'
      have := hconsEid (hx ▸ halive') q' hq'
      rw [h0] at this
      rw [hx]
      exact this
    · have he'' : e' = getEntity s e'.id := by
        conv_lhs => rw [← hEF e' he']
        exact hEeq e'.id hx
      have he'mem : e' ∈ s.store := by
        rw [he'']
        exact getEntity_mem s e'.id (hEFin e' he')
      have hq0mem : getQueryById s q'.id ∈ s.queries :=
        getQueryById_mem s q'.id (hqFin q' hq')
      have hw := w10 _ hq0mem e' he'mem (halsub _ halive')
      have hmemiff : e'.id ∈ q'.entities ↔
          e'.id ∈ (getQueryById s q'.id).entities := by
        conv_lhs => rw [← hqF q' hq']
        exact hmem q'.id e'.id hx
      have hmc : q'.matchesEntity e' ↔
          (getQueryById s q'.id).matchesEntity e' := by
        refine matchesEntity_congr2 _ _ _ _ ?_ ?_ rfl
        · conv_lhs => rw [← hqF q' hq']
          exact (hfields q'.id).1
        · conv_lhs => rw [← hqF q' hq']
          exact (hfields q'.id).2
      exact hmemiff.trans (hw.trans hmc.symm)

/-- The `onEntityComponentRemoved` loop, run from the state `s1` obtained from
`s` by erasing component `T` on entity `eid` (either the forced or the
deferred pre-state), keeps the loop invariant and the frame and satisfies the
removal outcome triple for every query id, phrased against the pre-mutation
query fields and the post-mutation entity. -/
theorem removeComponent_loop_spec (s s1 : EMState) (eid : Nat) (T : CType)
    (hq : s1.queries = s.queries) (hal : s1.alive = s.alive)
    (hsid : s1.store.map (fun e => e.id) = s.store.map (fun e => e.id))
    (hct1 : (getEntity s1 eid).ComponentTypes =
      (getEntity s eid).ComponentTypes.erase T)
    (hqs1 : (getEntity s1 eid).queries = (getEntity s eid).queries)
    (hother : ∀ x, x ≠ eid → getEntity s1 x = getEntity s x)
    (hloop : LoopInv s eid) :
    LoopInv (onEntityComponentRemoved s1 eid T) eid ∧
    FrameOn eid s (onEntityComponentRemoved s1 eid T) ∧
    ((getEntity (onEntityComponentRemoved s1 eid T) eid).ComponentTypes =
      (getEntity s eid).ComponentTypes.erase T) ∧
    (∀ qid : Nat,
      ((T ∈ (getQueryById s qid).NotComponents ∧
          eid ∉ (getQueryById s qid).entities ∧
          (getQueryById s qid).matchesEntity
            (getEntity (onEntityComponentRemoved s1 eid T) eid)) →
        eid ∈ (getQueryById (onEntityComponentRemoved s1 eid T) qid).entities) ∧
      (¬(T ∈ (getQueryById s qid).NotComponents ∧
          eid ∉ (getQueryById s qid).entities ∧
          (getQueryById s qid).matchesEntity
            (getEntity (onEntityComponentRemoved s1 eid T) eid)) →
        (T ∈ (getQueryById s qid).Components ∧
          eid ∈ (getQueryById s qid).entities ∧
          ¬ (getQueryById s qid).matchesEntity
            (getEntity (onEntityComponentRemoved s1 eid T) eid)) →
        eid ∉ (getQueryById (onEntityComponentRemoved s1 eid T) qid).entities) ∧
      (¬(T ∈ (getQueryById s qid).NotComponents ∧
          eid ∉ (getQueryById s qid).entities ∧
          (getQueryById s qid).matchesEntity
            (getEntity (onEntityComponentRemoved s1 eid T) eid)) →
        ¬(T ∈ (getQueryById s qid).Components ∧
          eid ∈ (getQueryById s qid).entities ∧
          ¬ (getQueryById s qid).matchesEntity
            (getEntity (onEntityComponentRemoved s1 eid T) eid)) →
        (eid ∈ (getQueryById (onEntityComponentRemoved s1 eid T) qid).entities ↔
         eid ∈ (getQueryById s qid).entities))) := by
  have hgq : ∀ x : Nat, getQueryById s1 x = getQueryById s x := by
    intro x
    unfold getQueryById
    rw [hq]
  have hein : eid ∈ s.store.map (fun e => e.id) := hloop.2.2.2.2.2
  have hloop1 : LoopInv s1 eid := by
    refine ⟨by rw [hsid]; exact hloop.1, by rw [hq]; exact hloop.2.1, ?_, ?_, ?_,
      by rw [hsid]; exact hein⟩
    · intro qid
      rw [hgq qid]
      exact hloop.2.2.1 qid
    · intro x
      by_cases hx : x = eid
      · subst hx
        rw [hqs1]
        exact hloop.2.2.2.1 x
      · rw [hother x hx]
        exact hloop.2.2.2.1 x
    · intro qid
      rw [hqs1, hgq qid]
      exact hloop.2.2.2.2.1 qid
  have hres : onEntityComponentRemoved s1 eid T =
      (s1.queries.map (fun q => q.id)).foldl (onRemovedStep eid T) s1 := rfl
  obtain ⟨fl, ffr, fct, _, fout, foth⟩ :=
    onRemoved_fold eid T (s1.queries.map (fun q => q.id)) s1
      (by rw [hq]; exact hloop.2.1) (fun i hi => hi) hloop1
  rw [hres]
  have hfr1 : FrameOn eid s s1 := by
    refine ⟨hal, hsid, by rw [hq], hother, ?_, ?_⟩
    · intro qid
      rw [hgq qid]
      exact ⟨rfl, rfl, rfl⟩
    · intro qid x _
      rw [hgq qid]
  have hmatchE : ∀ qid : Nat,
      ((getQueryById s qid).matchesEntity
        (getEntity ((s1.queries.map (fun q => q.id)).foldl (onRemovedStep eid T) s1) eid) ↔
       (getQueryById s qid).matchesEntity (getEntity s1 eid)) :=
    fun qid => matchesEntity_congr _ _ _ fct
  refine ⟨fl, FrameOn.trans hfr1 ffr, by rw [fct, hct1], ?_⟩
  intro qid
  by_cases hqin : qid ∈ s1.queries.map (fun q => q.id)
  · obtain ⟨o1, o2, o3⟩ := fout qid hqin
    rw [hgq qid] at o1 o2 o3
    refine ⟨?_, ?_, ?_⟩
    · rintro ⟨ha1, ha2, ha3⟩
      exact o1 ⟨ha1, ha2, (hmatchE qid).mp ha3⟩
    · intro hA hB
      exact o2 (fun hA' => hA ⟨hA'.1, hA'.2.1, (hmatchE qid).mpr hA'.2.2⟩)
        ⟨hB.1, hB.2.1, fun hm => hB.2.2 ((hmatchE qid).mpr hm)⟩
    · intro hA hB
      exact o3 (fun hA' => hA ⟨hA'.1, hA'.2.1, (hmatchE qid).mpr hA'.2.2⟩)
        (fun hB' => hB ⟨hB'.1, hB'.2.1, fun hm => hB'.2.2 ((hmatchE qid).mp hm)⟩)
  · have hqnots : qid ∉ s.queries.map (fun q => q.id) := by
      rw [← hq]
      exact hqin
    have hdef := getQueryById_not_mem s qid hqnots
    refine ⟨?_, ?_, ?_⟩
    · rintro ⟨ha1, _, _⟩
      rw [hdef] at ha1
      exact absurd ha1 (List.not_mem_nil T)
    · intro _ hB
      rw [hdef] at hB
      exact absurd hB.1 (List.not_mem_nil T)
    · intro _ _
      rw [foth qid hqin, hgq qid]

/-- `entityRemoveComponent` on an attached type keeps the loop invariant and
the frame, erases the type from the attached list, and satisfies the removal
outcome triple for every query id. -/
theorem entityRemoveComponent_core (s : EMState) (eid : Nat) (T : CType) (f : Bool)
    (hloop : LoopInv s eid) (hT : T ∈ (getEntity s eid).ComponentTypes) :
    LoopInv (entityRemoveComponent s eid T f) eid ∧
    FrameOn eid s (entityRemoveComponent s eid T f) ∧
    ((getEntity (entityRemoveComponent s eid T f) eid).ComponentTypes =
      (getEntity s eid).ComponentTypes.erase T) ∧
    (∀ qid : Nat,
      ((T ∈ (getQueryById s qid).NotComponents ∧
          eid ∉ (getQueryById s qid).entities ∧
          (getQueryById s qid).matchesEntity
            (getEntity (entityRemoveComponent s eid T f) eid)) →
        eid ∈ (getQueryById (entityRemoveComponent s eid T f) qid).entities) ∧
      (¬(T ∈ (getQueryById s qid).NotComponents ∧
          eid ∉ (getQueryById s qid).entities ∧
          (getQueryById s qid).matchesEntity
            (getEntity (entityRemoveComponent s eid T f) eid)) →
        (T ∈ (getQueryById s qid).Components ∧
          eid ∈ (getQueryById s qid).entities ∧
          ¬ (getQueryById s qid).matchesEntity
            (getEntity (entityRemoveComponent s eid T f) eid)) →
        eid ∉ (getQueryById (entityRemoveComponent s eid T f) qid).entities) ∧
      (¬(T ∈ (getQueryById s qid).NotComponents ∧
          eid ∉ (getQueryById s qid).entities ∧
          (getQueryById s qid).matchesEntity
            (getEntity (entityRemoveComponent s eid T f) eid)) →
        ¬(T ∈ (getQueryById s qid).Components ∧
          eid ∈ (getQueryById s qid).entities ∧
          ¬ (getQueryById s qid).matchesEntity
            (getEntity (entityRemoveComponent s eid T f) eid)) →
        (eid ∈ (getQueryById (entityRemoveComponent s eid T f) qid).entities ↔
         eid ∈ (getQueryById s qid).entities))) := by
  have hein : eid ∈ s.store.map (fun e => e.id) := hloop.2.2.2.2.2
  cases f with
  | true =>
    have hres : entityRemoveComponent s eid T true =
        onEntityComponentRemoved
          (updateEntity s eid
            (fun e => { e with ComponentTypes := e.ComponentTypes.erase T })) eid T := by
      unfold entityRemoveComponent
      rw [if_neg (fun hc => hc hT)]
      dsimp only
      rw [if_pos rfl]
    rw [hres]
    exact removeComponent_loop_spec s
      (updateEntity s eid
        (fun e => { e with ComponentTypes := e.ComponentTypes.erase T }))
      eid T rfl rfl
      (updateEntity_store_ids s eid
        (fun e => { e with ComponentTypes := e.ComponentTypes.erase T })
        (fun _ => rfl))
      (by rw [getEntity_updateEntity_self s eid
        (fun e => { e with ComponentTypes := e.ComponentTypes.erase T })
        (fun _ => rfl) hein])
      (by rw [getEntity_updateEntity_self s eid
        (fun e => { e with ComponentTypes := e.ComponentTypes.erase T })
        (fun _ => rfl) hein])
      (fun x hx => getEntity_updateEntity_other s eid x
        (fun e => { e with ComponentTypes := e.ComponentTypes.erase T })
        (fun _ => rfl) hx)
      hloop
  | false =>
    by_cases hemp : (getEntity s eid).ComponentTypesToRemove.isEmpty = true
    · have hres : entityRemoveComponent s eid T false =
          onEntityComponentRemoved
            (updateEntity
              { s with entitiesWithComponentsToRemove :=
                  s.entitiesWithComponentsToRemove ++ [eid] } eid
              (fun e => { e with ComponentTypes := e.ComponentTypes.erase T, ComponentTypesToRemove := e.ComponentTypesToRemove ++ [T] })) eid T := by
        unfold entityRemoveComponent
        rw [if_neg (fun hc => hc hT)]
        dsimp only
        rw [if_neg Bool.false_ne_true, if_pos hemp]
      rw [hres]
      exact removeComponent_loop_spec s
        (updateEntity
          { s with entitiesWithComponentsToRemove :=
              s.entitiesWithComponentsToRemove ++ [eid] } eid
          (fun e => { e with ComponentTypes := e.ComponentTypes.erase T, ComponentTypesToRemove := e.ComponentTypesToRemove ++ [T] }))
        eid T rfl rfl
        (updateEntity_store_ids
          { s with entitiesWithComponentsToRemove :=
              s.entitiesWithComponentsToRemove ++ [eid] } eid
          (fun e => { e with ComponentTypes := e.ComponentTypes.erase T, ComponentTypesToRemove := e.ComponentTypesToRemove ++ [T] })
          (fun _ => rfl))
        (by rw [getEntity_updateEntity_self
          { s with entitiesWithComponentsToRemove :=
              s.entitiesWithComponentsToRemove ++ [eid] } eid
          (fun e => { e with ComponentTypes := e.ComponentTypes.erase T, ComponentTypesToRemove := e.ComponentTypesToRemove ++ [T] })
          (fun _ => rfl) hein]
            exact rfl)
        (by rw [getEntity_updateEntity_self
          { s with entitiesWithComponentsToRemove :=
              s.entitiesWithComponentsToRemove ++ [eid] } eid
          (fun e => { e with ComponentTypes := e.ComponentTypes.erase T, ComponentTypesToRemove := e.ComponentTypesToRemove ++ [T] })
          (fun _ => rfl) hein]
            exact rfl)
        (fun x hx => getEntity_updateEntity_other
          { s with entitiesWithComponentsToRemove :=
              s.entitiesWithComponentsToRemove ++ [eid] } eid x
          (fun e => { e with ComponentTypes := e.ComponentTypes.erase T, ComponentTypesToRemove := e.ComponentTypesToRemove ++ [T] })
          (fun _ => rfl) hx)
        hloop
    · have hres : entityRemoveComponent s eid T false =
          onEntityComponentRemoved
            (updateEntity s eid
              (fun e => { e with ComponentTypes := e.ComponentTypes.erase T, ComponentTypesToRemove := e.ComponentTypesToRemove ++ [T] })) eid T := by
        unfold entityRemoveComponent
        rw [if_neg (fun hc => hc hT)]
        dsimp only
        rw [if_neg Bool.false_ne_true, if_neg hemp]
      rw [hres]
      exact removeComponent_loop_spec s
        (updateEntity s eid
          (fun e => { e with ComponentTypes := e.ComponentTypes.erase T, ComponentTypesToRemove := e.ComponentTypesToRemove ++ [T] }))
        eid T rfl rfl
        (updateEntity_store_ids s eid
          (fun e => { e with ComponentTypes := e.ComponentTypes.erase T, ComponentTypesToRemove := e.ComponentTypesToRemove ++ [T] })
          (fun _ => rfl))
        (by rw [getEntity_updateEntity_self s eid
          (fun e => { e with ComponentTypes := e.ComponentTypes.erase T, ComponentTypesToRemove := e.ComponentTypesToRemove ++ [T] })
          (fun _ => rfl) hein])
        (by rw [getEntity_updateEntity_self s eid
          (fun e => { e with ComponentTypes := e.ComponentTypes.erase T, ComponentTypesToRemove := e.ComponentTypesToRemove ++ [T] })
          (fun _ => rfl) hein])
        (fun x hx => getEntity_updateEntity_other s eid x
          (fun e => { e with ComponentTypes := e.ComponentTypes.erase T, ComponentTypesToRemove := e.ComponentTypesToRemove ++ [T] })
          (fun _ => rfl) hx)
        hloop

/-- `entityRemoveComponent` keeps the full query index well formed. -/
theorem WF_entityRemoveComponent (s : EMState) (eid : Nat) (T : CType) (f : Bool)
    (hwf : WF s) (halive : eid ∈ s.alive) : WF (entityRemoveComponent s eid T f) := by
  by_cases hT : T ∈ (getEntity s eid).ComponentTypes
  · have hloop : LoopInv s eid := LoopInv_of_WF s eid hwf halive
    have hein : eid ∈ s.store.map (fun e => e.id) := hloop.2.2.2.2.2
    have hnd : (getEntity s eid).ComponentTypes.Nodup :=
      hwf.2.2.2.2.1 _ (getEntity_mem s eid hein)
    obtain ⟨cl, cfr, cct, cout⟩ := entityRemoveComponent_core s eid T f hloop hT
    obtain ⟨fal, fsid, fqid, fent, ffields, fmem⟩ := cfr
    refine WF_reassemble s (entityRemoveComponent s eid T f) eid hwf cl fsid fqid
      (fun i hi => fal ▸ hi) fent
      (fun qid => ⟨(ffields qid).1, (ffields qid).2.1⟩) fmem ?_ ?_
    · rw [cct]
      exact hnd.erase T
    · intro _ q' hq'
      have hqF : getQueryById (entityRemoveComponent s eid T f) q'.id = q' :=
        getQueryById_of_mem _ q' hq' (by rw [fqid]; exact hwf.2.1)
      have hqin : q'.id ∈ s.queries.map (fun q => q.id) := by
        rw [← fqid]
        exact List.mem_map_of_mem _ hq'
      have hq0mem : getQueryById s q'.id ∈ s.queries := getQueryById_mem s q'.id hqin
      have hcons := hwf.2.2.2.2.2.2.2.2.2 _ hq0mem _ (getEntity_mem s eid hein)
        (by rw [getEntity_id]; exact halive)
      rw [getEntity_id s eid] at hcons
      obtain ⟨o1, o2, o3⟩ := cout q'.id
      have hmain := removed_consistent (getQueryById s q'.id) (getEntity s eid)
        (getEntity (entityRemoveComponent s eid T f) eid) T
        (eid ∈ (getQueryById s q'.id).entities)
        (eid ∈ (getQueryById (entityRemoveComponent s eid T f) q'.id).entities)
        hT hnd cct hcons o1 o2 o3
      rw [hqF] at hmain
      have hfq : q'.Components = (getQueryById s q'.id).Components := by
        conv_lhs => rw [← hqF]
        exact (ffields q'.id).1
      have hfn : q'.NotComponents = (getQueryById s q'.id).NotComponents := by
        conv_lhs => rw [← hqF]
        exact (ffields q'.id).2.1
      exact hmain.trans (matchesEntity_congr2 (getQueryById s q'.id) q'
        (getEntity (entityRemoveComponent s eid T f) eid)
        (getEntity (entityRemoveComponent s eid T f) eid) hfq hfn rfl).symm
  · have hres : entityRemoveComponent s eid T f = s := by
      unfold entityRemoveComponent
      rw [if_pos hT]
    rw [hres]
    exact hwf

/-- The backwards sweep of `entityRemoveAllComponents` (`length` iterations,
each removing the current last attached type) keeps the loop invariant and the
frame, empties the attached list, and preserves the one-sided fact that each
query holding `eid` matches it. -/
theorem removeAll_go_spec (eid : Nat) (f : Bool) : ∀ (n : Nat) (s : EMState),
    LoopInv s eid →
    (getEntity s eid).ComponentTypes.Nodup →
    (getEntity s eid).ComponentTypes.length = n →
    (∀ qid : Nat, eid ∈ (getQueryById s qid).entities →
      (getQueryById s qid).matchesEntity (getEntity s eid)) →
    LoopInv (entityRemoveAllComponents.go eid f s n) eid ∧
    FrameOn eid s (entityRemoveAllComponents.go eid f s n) ∧
    (getEntity (entityRemoveAllComponents.go eid f s n) eid).ComponentTypes = [] ∧
    (∀ qid : Nat,
      eid ∈ (getQueryById (entityRemoveAllComponents.go eid f s n) qid).entities →
      (getQueryById (entityRemoveAllComponents.go eid f s n) qid).matchesEntity
        (getEntity (entityRemoveAllComponents.go eid f s n) eid)) := by
  intro n
  induction n with
  | zero =>
    intro s hl hnd hlen hinv
    exact ⟨hl, FrameOn.refl s, List.length_eq_zero.mp hlen, hinv⟩
  | succ n ih =>
    intro s hl hnd hlen hinv
    have hne : (getEntity s eid).ComponentTypes ≠ [] := by
      intro h0
      rw [h0] at hlen
      exact Nat.succ_ne_zero n hlen.symm
    have hTm : (getEntity s eid).ComponentTypes.getLastD 0 ∈
        (getEntity s eid).ComponentTypes := by
      cases hL : (getEntity s eid).ComponentTypes.getLast? with
      | none => exact absurd (List.getLast?_eq_none_iff.mp hL) hne
      | some a =>
        rw [List.getLastD_eq_getLast?, hL]
        exact List.mem_of_mem_getLast? hL
    obtain ⟨cl, cfr, cct, cout⟩ := entityRemoveComponent_core s eid
      ((getEntity s eid).ComponentTypes.getLastD 0) f hl hTm
    have hnd' : (getEntity (entityRemoveComponent s eid
        ((getEntity s eid).ComponentTypes.getLastD 0) f) eid).ComponentTypes.Nodup := by
      rw [cct]
      exact hnd.erase _
    have hlen' : (getEntity (entityRemoveComponent s eid
        ((getEntity s eid).ComponentTypes.getLastD 0) f) eid).ComponentTypes.length = n := by
      rw [cct, List.length_erase_of_mem hTm, hlen]
      exact Nat.succ_sub_one n
    have hinv' : ∀ qid : Nat,
        eid ∈ (getQueryById (entityRemoveComponent s eid
          ((getEntity s eid).ComponentTypes.getLastD 0) f) qid).entities →
        (getQueryById (entityRemoveComponent s eid
          ((getEntity s eid).ComponentTypes.getLastD 0) f) qid).matchesEntity
          (getEntity (entityRemoveComponent s eid
            ((getEntity s eid).ComponentTypes.getLastD 0) f) eid) := by
      intro qid hmem
      obtain ⟨o1, o2, o3⟩ := cout qid
      have himp := removed_memimp (getQueryById s qid) (getEntity s eid)
        (getEntity (entityRemoveComponent s eid
          ((getEntity s eid).ComponentTypes.getLastD 0) f) eid)
        ((getEntity s eid).ComponentTypes.getLastD 0)
        (eid ∈ (getQueryById s qid).entities)
        (eid ∈ (getQueryById (entityRemoveComponent s eid
          ((getEntity s eid).ComponentTypes.getLastD 0) f) qid).entities)
        cct (hinv qid) o2 o3
      exact (matchesEntity_congr2 (getQueryById s qid)
        (getQueryById (entityRemoveComponent s eid
          ((getEntity s eid).ComponentTypes.getLastD 0) f) qid)
        (getEntity (entityRemoveComponent s eid
          ((getEntity s eid).ComponentTypes.getLastD 0) f) eid)
        (getEntity (entityRemoveComponent s eid
          ((getEntity s eid).ComponentTypes.getLastD 0) f) eid)
        (cfr.2.2.2.2.1 qid).1 (cfr.2.2.2.2.1 qid).2.1 rfl).mpr (himp hmem)
    obtain ⟨gl, gfr, gct, ginv⟩ := ih (entityRemoveComponent s eid
      ((getEntity s eid).ComponentTypes.getLastD 0) f) cl hnd' hlen' hinv'
    have hstep : entityRemoveAllComponents.go eid f s (n + 1) =
        entityRemoveAllComponents.go eid f (entityRemoveComponent s eid
          ((getEntity s eid).ComponentTypes.getLastD 0) f) n := rfl
    rw [hstep]
    exact ⟨gl, FrameOn.trans cfr gfr, gct, ginv⟩

/-- After `onEntityRemoved` purged `eid` from every query, sweeping away all
of its components — from any state `sB` with the same heap and queries and a
possibly shrunken live vector — leaves the query index well formed. -/
theorem WF_purge_sweep (s : EMState) (eid : Nat) (f : Bool) (sB : EMState)
    (hwf : WF s) (halive : eid ∈ s.alive)
    (hBstore : sB.store = (onEntityRemoved s eid).store)
    (hBqueries : sB.queries = (onEntityRemoved s eid).queries)
    (halsub : ∀ i ∈ sB.alive, i ∈ (onEntityRemoved s eid).alive) :
    WF (entityRemoveAllComponents sB eid f) := by
  have hloop0 : LoopInv s eid := LoopInv_of_WF s eid hwf halive
  have hein : eid ∈ s.store.map (fun e => e.id) := hloop0.2.2.2.2.2
  obtain ⟨pl, pfr, pct, pctr, pout, poth⟩ :=
    onEntityRemoved_fold eid (s.queries.map (fun q => q.id)) s hwf.2.1
      (fun i hi => hi) hloop0
  have hor : onEntityRemoved s eid =
      (s.queries.map (fun q => q.id)).foldl (onEntityRemovedStep eid) s := rfl
  rw [← hor] at pl pfr pct pctr pout poth
  have hgEB : ∀ x : Nat, getEntity sB x = getEntity (onEntityRemoved s eid) x := by
    intro x
    unfold getEntity
    rw [hBstore]
  have hgqB : ∀ x : Nat, getQueryById sB x = getQueryById (onEntityRemoved s eid) x := by
    intro x
    unfold getQueryById
    rw [hBqueries]
  have hpurge : ∀ qid : Nat, eid ∉ (getQueryById (onEntityRemoved s eid) qid).entities := by
    intro qid
    by_cases hq : qid ∈ s.queries.map (fun q => q.id)
    · exact pout qid hq
    · have hq1 : qid ∉ (onEntityRemoved s eid).queries.map (fun q => q.id) := by
        rw [pfr.2.2.1]
        exact hq
      rw [getQueryById_not_mem _ qid hq1]
      exact List.not_mem_nil eid
  have hloopB : LoopInv sB eid := by
    refine ⟨?_, ?_, ?_, ?_, ?_, ?_⟩
    · rw [hBstore]
      exact pl.1
    · rw [hBqueries]
      exact pl.2.1
    · intro qid
      rw [hgqB qid]
      exact pl.2.2.1 qid
    · intro x
      rw [hgEB x]
      exact pl.2.2.2.1 x
    · intro qid
      rw [hgEB eid, hgqB qid]
      exact pl.2.2.2.2.1 qid
    · rw [hBstore]
      exact pl.2.2.2.2.2
  have hndB : (getEntity sB eid).ComponentTypes.Nodup := by
    rw [hgEB eid, pct]
    exact hwf.2.2.2.2.1 _ (getEntity_mem s eid hein)
  have hinvB : ∀ qid : Nat, eid ∈ (getQueryById sB qid).entities →
      (getQueryById sB qid).matchesEntity (getEntity sB eid) := by
    intro qid hm
    rw [hgqB qid] at hm
    exact absurd hm (hpurge qid)
  have hra : entityRemoveAllComponents sB eid f =
      entityRemoveAllComponents.go eid f sB
        ((getEntity sB eid).ComponentTypes.length) := rfl
  rw [hra]
  obtain ⟨gl, gfr, gct, ginv⟩ :=
    removeAll_go_spec eid f ((getEntity sB eid).ComponentTypes.length) sB
      hloopB hndB rfl hinvB
  set sF := entityRemoveAllComponents.go eid f sB
    ((getEntity sB eid).ComponentTypes.length) with hsF
  have e1 : sB.store.map (fun e => e.id) = s.store.map (fun e => e.id) := by
    rw [hBstore]
    exact pfr.2.1
  have e2 : sB.queries.map (fun q => q.id) = s.queries.map (fun q => q.id) := by
    rw [hBqueries]
    exact pfr.2.2.1
  have hsid := gfr.2.1.trans e1
  have hqid := gfr.2.2.1.trans e2
  have halsubF : ∀ i ∈ sF.alive, i ∈ s.alive := by
    intro i hi
    rw [gfr.1] at hi
    have h2 := halsub i hi
    rw [pfr.1] at h2
    exact h2
  have hEeqF : ∀ x, x ≠ eid → getEntity sF x = getEntity s x := by
    intro x hx
    rw [gfr.2.2.2.1 x hx, hgEB x, pfr.2.2.2.1 x hx]
  have hfieldsF : ∀ qid : Nat,
      (getQueryById sF qid).Components = (getQueryById s qid).Components ∧
      (getQueryById sF qid).NotComponents = (getQueryById s qid).NotComponents := by
    intro qid
    constructor
    · rw [(gfr.2.2.2.2.1 qid).1, hgqB qid]
      exact (pfr.2.2.2.2.1 qid).1
    · rw [(gfr.2.2.2.2.1 qid).2.1, hgqB qid]
      exact (pfr.2.2.2.2.1 qid).2.1
  have hmemF : ∀ (qid x : Nat), x ≠ eid →
      (x ∈ (getQueryById sF qid).entities ↔ x ∈ (getQueryById s qid).entities) := by
    intro qid x hx
    refine (gfr.2.2.2.2.2 qid x hx).trans ?_
    rw [hgqB qid]
    exact pfr.2.2.2.2.2 qid x hx
  refine WF_reassemble s sF eid hwf gl hsid hqid halsubF hEeqF hfieldsF hmemF ?_ ?_
  · rw [gct]
    exact List.nodup_nil
  · intro _ q' hq'
    have hqF : getQueryById sF q'.id = q' :=
      getQueryById_of_mem sF q' hq' (by rw [hqid]; exact hwf.2.1)
    have hqin : q'.id ∈ s.queries.map (fun q => q.id) := by
      rw [← hqid]
      exact List.mem_map_of_mem _ hq'
    have hPos : q'.Components ≠ [] := by
      have h1 : q'.Components = (getQueryById s q'.id).Components := by
        conv_lhs => rw [← hqF]
        exact (hfieldsF q'.id).1
      rw [h1]
      exact hwf.2.2.1 _ (getQueryById_mem s q'.id hqin)
    have hnm : ¬ q'.matchesEntity (getEntity sF eid) :=
      not_matches_of_empty q' (getEntity sF eid) hPos gct
    refine iff_of_false (fun hm => hnm ?_) hnm
    have h2 := ginv q'.id (by rw [hqF]; exact hm)
    rw [hqF] at h2
    exact h2

/-- `removeEntity` (forced or deferred) leaves the query index well formed. -/
theorem WF_removeEntity (s : EMState) (eid : Nat) (f : Bool) (s' : EMState)
    (hwf : WF s) (hrem : removeEntity s eid f = some s') : WF s' := by
  unfold removeEntity at hrem
  by_cases halive : eid ∈ s.alive
  · rw [if_neg (fun hc => hc halive)] at hrem
    injection hrem with hrem
    subst hrem
    dsimp only
    cases f with
    | true =>
      rw [if_pos rfl]
      exact WF_purge_sweep s eid true
        { onEntityRemoved s eid with alive := (onEntityRemoved s eid).alive.erase eid }
        hwf halive rfl rfl (fun i hi => List.mem_of_mem_erase hi)
    | false =>
      rw [if_neg Bool.false_ne_true]
      exact WF_purge_sweep s eid false (onEntityRemoved s eid)
        hwf halive rfl rfl (fun i hi => hi)
  · rw [if_pos halive] at hrem
    cases hrem

/-- C1: For every live query Q and every live entity e, after any single
public mutation completes on a well-formed state — `entityAddComponent`,
`entityRemoveComponent` (with or without force), or `removeEntity` — e is in
Q's entity vector if and only if e has every component type in Q's positive
set attached and none of the types in Q's negated set attached. -/
theorem c1_query_membership (s : EMState) (eid : Nat) (T : CType) (f : Bool)
    (s' : EMState) (hwf : WF s) (halive : eid ∈ s.alive)
    (hrem : removeEntity s eid f = some s') :
    queryConsistent (entityAddComponent s eid T) ∧
    queryConsistent (entityRemoveComponent s eid T f) ∧
    queryConsistent s' :=
  ⟨(WF_entityAddComponent s eid T hwf halive).2.2.2.2.2.2.2.2.2,
   (WF_entityRemoveComponent s eid T f hwf halive).2.2.2.2.2.2.2.2.2,
   (WF_removeEntity s eid f s' hwf hrem).2.2.2.2.2.2.2.2.2⟩

theorem c1_query_membership_witness :
    WF (⟨[⟨0, [1], [], [10]⟩], [0], [⟨10, [1], [2], [0], false⟩], [], []⟩ : EMState) ∧
    0 ∈ (⟨[⟨0, [1], [], [10]⟩], [0], [⟨10, [1], [2], [0], false⟩], [], []⟩ : EMState).alive ∧
    removeEntity (⟨[⟨0, [1], [], [10]⟩], [0], [⟨10, [1], [2], [0], false⟩], [], []⟩ : EMState)
        0 false =
      some ((removeEntity
        (⟨[⟨0, [1], [], [10]⟩], [0], [⟨10, [1], [2], [0], false⟩], [], []⟩ : EMState)
        0 false).getD ⟨[], [], [], [], []⟩) ∧
    (queryConsistent (entityAddComponent
        (⟨[⟨0, [1], [], [10]⟩], [0], [⟨10, [1], [2], [0], false⟩], [], []⟩ : EMState) 0 1) ∧
     queryConsistent (entityRemoveComponent
        (⟨[⟨0, [1], [], [10]⟩], [0], [⟨10, [1], [2], [0], false⟩], [], []⟩ : EMState) 0 1 false) ∧
     queryConsistent ((removeEntity
        (⟨[⟨0, [1], [], [10]⟩], [0], [⟨10, [1], [2], [0], false⟩], [], []⟩ : EMState)
        0 false).getD ⟨[], [], [], [], []⟩)) :=
  ⟨by decide, by decide, by decide,
   c1_query_membership
     (⟨[⟨0, [1], [], [10]⟩], [0], [⟨10, [1], [2], [0], false⟩], [], []⟩ : EMState) 0 1 false
     ((removeEntity
        (⟨[⟨0, [1], [], [10]⟩], [0], [⟨10, [1], [2], [0], false⟩], [], []⟩ : EMState)
        0 false).getD ⟨[], [], [], [], []⟩)
     (by decide) (by decide) (by decide)⟩

theorem c2_pending_disjoint_witness :
    pendingDisjoint (entityRemoveComponent ⟨[⟨0, [5], [], []⟩], [0], [], [], []⟩
      0 5 false) ∧
    pendingDisjoint (entityAddComponent ⟨[⟨0, [5], [], []⟩], [0], [], [], []⟩ 0 7) :=
  ⟨(c2_pending_disjoint ⟨[⟨0, [5], [], []⟩], [0], [], [], []⟩ 0 5 false
      (by decide) (by decide) (by decide)).1,
   (c2_pending_disjoint ⟨[⟨0, [5], [], []⟩], [0], [], [], []⟩ 0 7 false
      (by decide) (by decide) (by decide)).2 (by decide)⟩

theorem c4_reregister_witness :
    ((ComponentManager.mk [("a", 3)] [("a", 5)]).registerComponent "a" 3).Components
      = [("a", 3)] ∧
    lookupAssoc ((ComponentManager.mk [("a", 3)] [("a", 5)]).registerComponent
      "a" 3).numComponents "a" = some 0 :=
  c4_reregister ⟨[("a", 3)], [("a", 5)]⟩ "a" 3 (by decide) (by rfl)

end Ecsy
